import Mathlib

/-!
Verification development for the `unbound-manager` administration tool.

Each definition below is a shallow embedding of a Python function of the
repository (module and function named in its doc comment).  File contents are
modelled as lists of lines, strings as `String` or `List Char`
(Python compares strings lexicographically by code point, which coincides with
the `List Char` lexicographic order), CPython floats appearing in the byte
formatters as `ℚ` (every operation those formatters perform on realistic
inputs — division by 1024 and comparison against 1024 — is exact in binary
floating point, so the rational model is faithful), and effectful workflows as
explicit state passing over an environment record describing the outcome of
each external command.
-/

/-- Python `str.strip()` whitespace class (space, tab, LF, CR, VT, FF). -/
def pySpace (c : Char) : Bool :=
  c = ' ' || c = '\t' || c = '\n' || c = '\r' || c = '\x0b' || c = '\x0c'

/-- Python `str.strip()` on a code-point list. -/
def pyStrip (l : List Char) : List Char :=
  ((l.dropWhile pySpace).reverse.dropWhile pySpace).reverse

/-- Python `str.startswith` / `in`-at-front on code-point lists (also reused
componentwise for paths). -/
def lpre {α : Type} [DecidableEq α] : List α → List α → Bool
  | [], _ => true
  | _ :: _, [] => false
  | p :: ps, c :: cs => p = c && lpre ps cs

/-- Split a list around the first occurrence of `pat` (`none` if `pat` does
not occur) — the scanning core of Python `str.split(sep)` and `sep in s`. -/
def splitFirst (pat : List Char) : List Char → Option (List Char × List Char)
  | [] => if pat = [] then some ([], []) else none
  | c :: cs =>
    if lpre pat (c :: cs) then some ([], (c :: cs).drop pat.length)
    else match splitFirst pat cs with
      | some (a, b) => some (c :: a, b)
      | none => none

/-- Python `sep in s` on code-point lists. -/
def containsSub (pat l : List Char) : Bool :=
  (splitFirst pat l).isSome

/-- Python element 1 of `s.split(sep)`: the segment between the first and the
second occurrence of `sep` (up to the end when `sep` occurs only once). -/
def segmentAfterFirst (pat l : List Char) : Option (List Char) :=
  match splitFirst pat l with
  | none => none
  | some (_, after) =>
    match splitFirst pat after with
    | some (a, _) => some a
    | none => some after

/-- Helper for Python `str.split()` (whitespace words), with accumulator. -/
def wordsAux : List Char → List Char → List (List Char)
  | acc, [] => if acc = [] then [] else [acc.reverse]
  | acc, c :: cs =>
    if pySpace c then
      if acc = [] then wordsAux [] cs else acc.reverse :: wordsAux [] cs
    else wordsAux (c :: acc) cs

/-- Python `str.split()` — split on whitespace runs, dropping empty pieces. -/
def pySplitWs (l : List Char) : List (List Char) :=
  wordsAux [] l

/-!  ## Byte formatting (claim C9)

Embeddings of `utils.format_bytes` and `backup.BackupManager._format_size`.
CPython float values reached by these functions are modelled as `ℚ`;
`f"{x:.<d>f}"` rounds the float's exact value to `d` decimal digits with
round-half-to-even, which `pyFixed` implements literally. -/

/-- Round-half-to-even of a rational to an integer (CPython float→fixed-point
formatting rule). -/
def roundHalfEven (q : ℚ) : ℤ :=
  let n := ⌊q⌋
  let f := q - n
  if f < 1/2 then n
  else if 1/2 < f then n + 1
  else if n % 2 = 0 then n else n + 1

/-- Left-pad a decimal digit string with zeros to `d` digits. -/
def padZeros (d : ℕ) (s : String) : String :=
  if s.length < d then String.mk (List.replicate (d - s.length) '0') ++ s else s

/-- Python `f"{x:.<d>f}"` for a nonnegative float, modelled exactly. -/
def pyFixed (d : ℕ) (q : ℚ) : String :=
  let m := (roundHalfEven (q * (10 : ℚ) ^ d)).toNat
  toString (m / 10 ^ d) ++ "." ++ padZeros d (toString (m % 10 ^ d))

/-- Loop of `utils.format_bytes`: try each unit, dividing by 1024, two
decimal places, falling through to `PB`. -/
def formatBytesAux : ℚ → List String → String
  | v, [] => pyFixed 2 v ++ " PB"
  | v, u :: us => if v < 1024 then pyFixed 2 v ++ " " ++ u else formatBytesAux (v / 1024) us

/-- `utils.format_bytes`: unit ladder B/KB/MB/GB/TB/PB, two decimals. -/
def format_bytes (n : ℕ) : String :=
  formatBytesAux n ["B", "KB", "MB", "GB", "TB"]

/-- Loop of `backup.BackupManager._format_size`: one decimal place, ladder
stops at TB. -/
def formatSizeAux : ℚ → List String → String
  | v, [] => pyFixed 1 v ++ " TB"
  | v, u :: us => if v < 1024 then pyFixed 1 v ++ " " ++ u else formatSizeAux (v / 1024) us

/-- `backup.BackupManager._format_size`. -/
def backupFormatSize (n : ℕ) : String :=
  formatSizeAux n ["B", "KB", "MB", "GB"]

theorem roundHalfEven_intCast (m : ℤ) : roundHalfEven (m : ℚ) = m := by
  simp [roundHalfEven]

theorem roundHalfEven_cast_mul (d n : ℕ) :
    (roundHalfEven ((n : ℚ) * (10 : ℚ) ^ d)).toNat = n * 10 ^ d := by
  have h : ((n : ℚ)) * (10 : ℚ) ^ d = (((n * 10 ^ d : ℕ) : ℤ) : ℚ) := by push_cast; ring
  rw [h, roundHalfEven_intCast, Int.toNat_natCast]

theorem pyFixed_nat (d n : ℕ) :
    pyFixed d (n : ℚ) = toString n ++ "." ++ padZeros d "0" := by
  simp only [pyFixed, roundHalfEven_cast_mul]
  have h10 : (0:ℕ) < 10 ^ d := Nat.pos_pow_of_pos d (by norm_num)
  rw [Nat.mul_div_cancel n h10, Nat.mul_mod_left]
  rfl

theorem formatBytesAux_stop {v : ℚ} (u : String) (us : List String) (h : v < 1024) :
    formatBytesAux v (u :: us) = pyFixed 2 v ++ " " ++ u := by
  simp [formatBytesAux, h]

theorem formatBytesAux_step {v : ℚ} (u : String) (us : List String) (h : 1024 ≤ v) :
    formatBytesAux v (u :: us) = formatBytesAux (v / 1024) us := by
  simp [formatBytesAux, not_lt.mpr h]

theorem formatSizeAux_stop {v : ℚ} (u : String) (us : List String) (h : v < 1024) :
    formatSizeAux v (u :: us) = pyFixed 1 v ++ " " ++ u := by
  simp [formatSizeAux, h]

theorem formatSizeAux_step {v : ℚ} (u : String) (us : List String) (h : 1024 ≤ v) :
    formatSizeAux v (u :: us) = formatSizeAux (v / 1024) us := by
  simp [formatSizeAux, not_lt.mpr h]

theorem qcast_lt_pow {n : ℕ} {k : ℕ} (h : n < 1024 ^ k) :
    (n : ℚ) / 1024 ^ (k - 1) < 1024 ∨ k = 0 := by
  rcases Nat.eq_zero_or_pos k with hk | hk
  · exact Or.inr hk
  · left
    rw [div_lt_iff (by positivity : (0:ℚ) < 1024 ^ (k - 1))]
    have : ((n : ℚ)) < ((1024 ^ k : ℕ) : ℚ) := by exact_mod_cast h
    calc (n : ℚ) < ((1024 ^ k : ℕ) : ℚ) := this
    _ = 1024 * 1024 ^ (k - 1) := by
        push_cast
        rw [← pow_succ']
        congr 1
        omega

theorem qcast_le_pow {n : ℕ} {k : ℕ} (h : 1024 ^ k ≤ n) :
    (1024 : ℚ) ≤ (n : ℚ) / 1024 ^ (k - 1) ∨ k = 0 := by
  rcases Nat.eq_zero_or_pos k with hk | hk
  · exact Or.inr hk
  · left
    rw [le_div_iff (by positivity : (0:ℚ) < 1024 ^ (k - 1))]
    have : ((1024 ^ k : ℕ) : ℚ) ≤ (n : ℚ) := by exact_mod_cast h
    calc (1024 : ℚ) * 1024 ^ (k - 1) = ((1024 ^ k : ℕ) : ℚ) := by
          push_cast
          rw [← pow_succ']
          congr 1
          omega
    _ ≤ (n : ℚ) := this

theorem div_div_pow (n : ℚ) (k : ℕ) : n / 1024 ^ k / 1024 = n / 1024 ^ (k + 1) := by
  rw [div_div, ← pow_succ]

theorem spaceUnit (s u t : String) (h : " " ++ u = t) : s ++ " " ++ u = s ++ t := by
  rw [String.append_assoc, h]

/-- Unit selected by `format_bytes` on each 1024-power range (two decimals). -/
theorem formatBytes_rung (n : ℕ) :
    (n < 1024 → format_bytes n = pyFixed 2 (n : ℚ) ++ " B") ∧
    (1024 ≤ n → n < 1024 ^ 2 → format_bytes n = pyFixed 2 ((n : ℚ) / 1024) ++ " KB") ∧
    (1024 ^ 2 ≤ n → n < 1024 ^ 3 →
      format_bytes n = pyFixed 2 ((n : ℚ) / 1024 ^ 2) ++ " MB") ∧
    (1024 ^ 3 ≤ n → n < 1024 ^ 4 →
      format_bytes n = pyFixed 2 ((n : ℚ) / 1024 ^ 3) ++ " GB") ∧
    (1024 ^ 4 ≤ n → n < 1024 ^ 5 →
      format_bytes n = pyFixed 2 ((n : ℚ) / 1024 ^ 4) ++ " TB") ∧
    (1024 ^ 5 ≤ n → format_bytes n = pyFixed 2 ((n : ℚ) / 1024 ^ 5) ++ " PB") := by
  have lt1 : ∀ k : ℕ, n < 1024 ^ (k + 1) → (n : ℚ) / 1024 ^ k < 1024 := by
    intro k h
    rcases qcast_lt_pow (k := k + 1) h with h' | h'
    · simpa using h'
    · omega
  have ge1 : ∀ k : ℕ, 1024 ^ (k + 1) ≤ n → (1024 : ℚ) ≤ (n : ℚ) / 1024 ^ k := by
    intro k h
    rcases qcast_le_pow (k := k + 1) h with h' | h'
    · simpa using h'
    · omega
  refine ⟨?_, ?_, ?_, ?_, ?_, ?_⟩
  · intro h
    have := lt1 0 (by simpa using h)
    rw [format_bytes, formatBytesAux_stop _ _ (by simpa using this)]
    exact spaceUnit _ _ _ rfl
  · intro h1 h2
    rw [format_bytes, formatBytesAux_step _ _ (by simpa using ge1 0 (by simpa using h1)),
      formatBytesAux_stop _ _ (by simpa [div_div_pow] using lt1 1 h2)]
    exact spaceUnit _ _ _ rfl
  · intro h1 h2
    rw [format_bytes, formatBytesAux_step _ _ (by simpa using ge1 0 (le_trans (by norm_num) h1)),
      formatBytesAux_step _ _ (by simpa [pow_one] using ge1 1 h1)]
    rw [show ((n:ℚ)/1024 : ℚ) = (n:ℚ)/1024^1 by norm_num, div_div_pow,
      formatBytesAux_stop _ _ (lt1 2 h2)]
    exact spaceUnit _ _ _ rfl
  · intro h1 h2
    rw [format_bytes, formatBytesAux_step _ _ (by simpa using ge1 0 (le_trans (by norm_num) h1)),
      formatBytesAux_step _ _ (by simpa [pow_one] using ge1 1 (le_trans (by norm_num) h1))]
    rw [show ((n:ℚ)/1024 : ℚ) = (n:ℚ)/1024^1 by norm_num, div_div_pow,
      formatBytesAux_step _ _ (ge1 2 h1), div_div_pow,
      formatBytesAux_stop _ _ (lt1 3 h2)]
    exact spaceUnit _ _ _ rfl
  · intro h1 h2
    rw [format_bytes, formatBytesAux_step _ _ (by simpa using ge1 0 (le_trans (by norm_num) h1)),
      formatBytesAux_step _ _ (by simpa [pow_one] using ge1 1 (le_trans (by norm_num) h1))]
    rw [show ((n:ℚ)/1024 : ℚ) = (n:ℚ)/1024^1 by norm_num, div_div_pow,
      formatBytesAux_step _ _ (ge1 2 (le_trans (by norm_num) h1)), div_div_pow,
      formatBytesAux_step _ _ (ge1 3 h1), div_div_pow,
      formatBytesAux_stop _ _ (lt1 4 h2)]
    exact spaceUnit _ _ _ rfl
  · intro h1
    rw [format_bytes, formatBytesAux_step _ _ (by simpa using ge1 0 (le_trans (by norm_num) h1)),
      formatBytesAux_step _ _ (by simpa [pow_one] using ge1 1 (le_trans (by norm_num) h1))]
    rw [show ((n:ℚ)/1024 : ℚ) = (n:ℚ)/1024^1 by norm_num, div_div_pow,
      formatBytesAux_step _ _ (ge1 2 (le_trans (by norm_num) h1)), div_div_pow,
      formatBytesAux_step _ _ (ge1 3 (le_trans (by norm_num) h1)), div_div_pow,
      formatBytesAux_step _ _ (ge1 4 h1), div_div_pow]
    rfl

/-- Unit selected by `_format_size` on each 1024-power range (one decimal,
the ladder stops at TB). -/
theorem formatSize_rung (n : ℕ) :
    (n < 1024 → backupFormatSize n = pyFixed 1 (n : ℚ) ++ " B") ∧
    (1024 ≤ n → n < 1024 ^ 2 → backupFormatSize n = pyFixed 1 ((n : ℚ) / 1024) ++ " KB") ∧
    (1024 ^ 2 ≤ n → n < 1024 ^ 3 →
      backupFormatSize n = pyFixed 1 ((n : ℚ) / 1024 ^ 2) ++ " MB") ∧
    (1024 ^ 3 ≤ n → n < 1024 ^ 4 →
      backupFormatSize n = pyFixed 1 ((n : ℚ) / 1024 ^ 3) ++ " GB") ∧
    (1024 ^ 4 ≤ n → backupFormatSize n = pyFixed 1 ((n : ℚ) / 1024 ^ 4) ++ " TB") := by
  have lt1 : ∀ k : ℕ, n < 1024 ^ (k + 1) → (n : ℚ) / 1024 ^ k < 1024 := by
    intro k h
    rcases qcast_lt_pow (k := k + 1) h with h' | h'
    · simpa using h'
    · omega
  have ge1 : ∀ k : ℕ, 1024 ^ (k + 1) ≤ n → (1024 : ℚ) ≤ (n : ℚ) / 1024 ^ k := by
    intro k h
    rcases qcast_le_pow (k := k + 1) h with h' | h'
    · simpa using h'
    · omega
  refine ⟨?_, ?_, ?_, ?_, ?_⟩
  · intro h
    have := lt1 0 (by simpa using h)
    rw [backupFormatSize, formatSizeAux_stop _ _ (by simpa using this)]
    exact spaceUnit _ _ _ rfl
  · intro h1 h2
    rw [backupFormatSize, formatSizeAux_step _ _ (by simpa using ge1 0 (by simpa using h1)),
      formatSizeAux_stop _ _ (by simpa [div_div_pow] using lt1 1 h2)]
    exact spaceUnit _ _ _ rfl
  · intro h1 h2
    rw [backupFormatSize, formatSizeAux_step _ _ (by simpa using ge1 0 (le_trans (by norm_num) h1)),
      formatSizeAux_step _ _ (by simpa [pow_one] using ge1 1 h1)]
    rw [show ((n:ℚ)/1024 : ℚ) = (n:ℚ)/1024^1 by norm_num, div_div_pow,
      formatSizeAux_stop _ _ (lt1 2 h2)]
    exact spaceUnit _ _ _ rfl
  · intro h1 h2
    rw [backupFormatSize, formatSizeAux_step _ _ (by simpa using ge1 0 (le_trans (by norm_num) h1)),
      formatSizeAux_step _ _ (by simpa [pow_one] using ge1 1 (le_trans (by norm_num) h1))]
    rw [show ((n:ℚ)/1024 : ℚ) = (n:ℚ)/1024^1 by norm_num, div_div_pow,
      formatSizeAux_step _ _ (ge1 2 h1), div_div_pow,
      formatSizeAux_stop _ _ (lt1 3 h2)]
    exact spaceUnit _ _ _ rfl
  · intro h1
    rw [backupFormatSize, formatSizeAux_step _ _ (by simpa using ge1 0 (le_trans (by norm_num) h1)),
      formatSizeAux_step _ _ (by simpa [pow_one] using ge1 1 (le_trans (by norm_num) h1))]
    rw [show ((n:ℚ)/1024 : ℚ) = (n:ℚ)/1024^1 by norm_num, div_div_pow,
      formatSizeAux_step _ _ (ge1 2 (le_trans (by norm_num) h1)), div_div_pow,
      formatSizeAux_step _ _ (ge1 3 h1), div_div_pow]
    rfl

theorem formatBytes_1023 : format_bytes 1023 = "1023.00 B" := by
  rw [(formatBytes_rung 1023).1 (by norm_num), pyFixed_nat]
  rfl

theorem formatBytes_1024 : format_bytes 1024 = "1.00 KB" := by
  rw [((formatBytes_rung 1024).2.1 (by norm_num) (by norm_num)),
    show ((1024:ℕ):ℚ)/1024 = ((1:ℕ):ℚ) by norm_num, pyFixed_nat]
  rfl

theorem formatSize_1023 : backupFormatSize 1023 = "1023.0 B" := by
  rw [(formatSize_rung 1023).1 (by norm_num), pyFixed_nat]
  rfl

/-- Claim C9 (counterexample): the claim asserts that the two-decimal
B/KB/MB/GB/TB/PB formatting convention of `utils.format_bytes` is applied by
every size-formatting component including `backup.BackupManager._format_size`.
At 1023 bytes the two formatters disagree: `format_bytes` renders
`"1023.00 B"` while `_format_size` renders `"1023.0 B"` (one decimal). -/
theorem format_size_differs_from_format_bytes :
    backupFormatSize 1023 = "1023.0 B" ∧ format_bytes 1023 = "1023.00 B" ∧
    backupFormatSize 1023 ≠ format_bytes 1023 := by
  refine ⟨formatSize_1023, formatBytes_1023, ?_⟩
  rw [formatSize_1023, formatBytes_1023]
  decide

/-- Claim C9 (amended): `format_bytes` steps to the next-larger unit exactly
at 1024 over the ladder B/KB/MB/GB/TB/PB with two decimal places
(1023 renders as `"1023.00 B"`, 1024 as `"1.00 KB"`); the backup manager's
`_format_size` shares the step-at-1024 rule but renders one decimal place and
its ladder stops at TB, so the full rendering convention is not shared. -/
theorem byte_format_boundary (n : ℕ) :
    (n < 1024 → format_bytes n = pyFixed 2 (n : ℚ) ++ " B" ∧
      backupFormatSize n = pyFixed 1 (n : ℚ) ++ " B") ∧
    (1024 ≤ n → n < 1024 ^ 2 → format_bytes n = pyFixed 2 ((n : ℚ) / 1024) ++ " KB" ∧
      backupFormatSize n = pyFixed 1 ((n : ℚ) / 1024) ++ " KB") ∧
    (1024 ^ 5 ≤ n → format_bytes n = pyFixed 2 ((n : ℚ) / 1024 ^ 5) ++ " PB") ∧
    (1024 ^ 4 ≤ n → backupFormatSize n = pyFixed 1 ((n : ℚ) / 1024 ^ 4) ++ " TB") ∧
    format_bytes 1023 = "1023.00 B" ∧ format_bytes 1024 = "1.00 KB" ∧
    backupFormatSize 1023 = "1023.0 B" := by
  refine ⟨fun h => ⟨(formatBytes_rung n).1 h, (formatSize_rung n).1 h⟩,
    fun h1 h2 => ⟨(formatBytes_rung n).2.1 h1 h2, (formatSize_rung n).2.1 h1 h2⟩,
    fun h => (formatBytes_rung n).2.2.2.2.2 h,
    fun h => (formatSize_rung n).2.2.2.2 h,
    formatBytes_1023, formatBytes_1024, formatSize_1023⟩

/-- Claim C9 witness: the amended boundary theorem evaluated at 1023. -/
theorem byte_format_boundary_witness :
    format_bytes 1023 = pyFixed 2 ((1023 : ℕ) : ℚ) ++ " B" ∧
    backupFormatSize 1023 = pyFixed 1 ((1023 : ℕ) : ℚ) ++ " B" :=
  (byte_format_boundary 1023).1 (by norm_num)

/-!  ## Backup archives: naming, listing, retention (claims C3, C10)

Embeddings of `backup.BackupManager.create_backup` (archive naming),
`list_backups` and `cleanup_old_backups`.  A directory is modelled as the list
of its entry names; a filename is its list of code points, ordered by the
lexicographic order on `List Char`, which is exactly how Python's `sorted`
compares `Path` names here. -/

/-- A directory entry name (Python compares these code point by code point). -/
abbrev FileName := List Char

/-- The descending comparison used by `sorted(..., reverse=True)`. -/
def geName (a b : FileName) : Prop := b ≤ a

instance : DecidableRel geName := fun a b => (inferInstance : Decidable (b ≤ a))

instance : IsTotal FileName geName := ⟨fun a b => le_total b a⟩

instance : IsTrans FileName geName := ⟨fun _ _ _ hab hbc => le_trans hbc hab⟩

instance : IsAntisymm FileName geName := ⟨fun _ _ hab hba => le_antisymm hba hab⟩

/-- The `backup_*.tar.gz` pattern of `BackupManager.list_backups` (glob `*`
matches any run of characters; directory entries never contain `/`). -/
def matchesBackupGlob (name : FileName) : Bool :=
  lpre ("backup_".data) name && lpre (".tar.gz".data).reverse (name.drop 7).reverse

/-- `backup.BackupManager.list_backups`: glob then sort descending. -/
def list_backups (dir : List FileName) : List FileName :=
  List.insertionSort geName (dir.filter matchesBackupGlob)

/-- `backup.BackupManager.cleanup_old_backups`: keep the `keep` most recent
archives, unlink the rest.  Returns `(removed, remaining directory)`. -/
def cleanup_old_backups (keep : ℕ) (dir : List FileName) : List FileName × List FileName :=
  let backups := list_backups dir
  if backups.length ≤ keep then ([], dir)
  else (backups.drop keep, dir.filter (fun n => decide (n ∉ backups.drop keep)))

/-- Archive name built by `backup.BackupManager.create_backup`:
`backup_<timestamp>[_<description with spaces replaced>].tar.gz`. -/
def mkBackupName (timestamp description : List Char) : FileName :=
  "backup_".data ++ timestamp ++
    (if description = [] then [] else
      '_' :: description.map (fun c => if c = ' ' then '_' else c)) ++ ".tar.gz".data

theorem lpre_append {α : Type} [DecidableEq α] (p l : List α) : lpre p (p ++ l) = true := by
  induction p with
  | nil => rfl
  | cons c cs ih => simp [lpre, ih]

theorem sorted_list_backups (dir : List FileName) : (list_backups dir).Sorted geName :=
  List.sorted_insertionSort geName _
theorem nodup_list_backups {dir : List FileName} (h : dir.Nodup) :
    (list_backups dir).Nodup :=
  ((List.perm_insertionSort geName _).nodup_iff).mpr (h.filter _)

theorem take_drop_le {dir : List FileName} (keep : ℕ) {d k : FileName}
    (hd : d ∈ (list_backups dir).drop keep) (hk : k ∈ (list_backups dir).take keep) :
    d ≤ k := by
  have hs : ((list_backups dir).take keep ++ (list_backups dir).drop keep).Pairwise geName := by
    rw [List.take_append_drop]
    exact sorted_list_backups dir
  exact (List.pairwise_append.mp hs).2.2 k hk d hd

theorem list_backups_filter_drop {dir : List FileName} (keep : ℕ) (h : dir.Nodup) :
    list_backups (dir.filter (fun n => decide (n ∉ (list_backups dir).drop keep))) =
      (list_backups dir).take keep := by
  set bs := list_backups dir with hbs
  set p : FileName → Bool := fun n => decide (n ∉ bs.drop keep) with hp
  have hperm : List.Perm ((dir.filter p).filter matchesBackupGlob) (bs.take keep) := by
    have h1 : (dir.filter p).filter matchesBackupGlob
        = (dir.filter matchesBackupGlob).filter p := by
      rw [List.filter_filter, List.filter_filter]
      apply List.filter_congr
      intro x _
      exact Bool.and_comm _ _
    have h2 : List.Perm ((dir.filter matchesBackupGlob).filter p) (bs.filter p) :=
      (List.perm_insertionSort geName _).symm.filter p
    have h3 : bs.filter p = bs.take keep := by
      have hnd : bs.Nodup := nodup_list_backups h
      conv_lhs => rw [← List.take_append_drop keep bs]
      rw [List.filter_append]
      have hnod2 : ((bs.take keep) ++ (bs.drop keep)).Nodup := by
        rw [List.take_append_drop]
        exact hnd
      have hdisj := List.disjoint_of_nodup_append hnod2
      have ht : (bs.take keep).filter p = bs.take keep := by
        apply List.filter_eq_self.mpr
        intro a ha
        simp only [hp, decide_eq_true_eq]
        exact fun hmem => hdisj ha hmem
      have hd : (bs.drop keep).filter p = [] := by
        apply List.filter_eq_nil_iff.mpr
        intro a ha
        simp [hp, ha]
      rw [ht, hd, List.append_nil]
    rw [h1]
    exact h2.trans (h3 ▸ List.Perm.refl _)
  apply List.eq_of_perm_of_sorted
    ((List.perm_insertionSort geName _).trans hperm)
    (List.sorted_insertionSort geName _)
  exact (sorted_list_backups dir).sublist (List.take_sublist _ _)

/-- Claim C3: `cleanup_old_backups keep` deletes nothing when there are at
most `keep` archives; otherwise it deletes exactly the `N - keep` oldest
archives in filename (timestamp) order — every deleted archive compares at or
below every kept one — and the `keep` newest remain the directory's listing. -/
theorem cleanup_old_backups_spec (dir : List FileName) (keep : ℕ) (hnd : dir.Nodup) :
    ((list_backups dir).length ≤ keep →
      cleanup_old_backups keep dir = ([], dir)) ∧
    (keep < (list_backups dir).length →
      (cleanup_old_backups keep dir).1 = (list_backups dir).drop keep ∧
      (cleanup_old_backups keep dir).1.length = (list_backups dir).length - keep ∧
      (∀ d ∈ (cleanup_old_backups keep dir).1,
        ∀ k ∈ (list_backups dir).take keep, d ≤ k) ∧
      list_backups (cleanup_old_backups keep dir).2 = (list_backups dir).take keep) := by
  constructor
  · intro h
    simp [cleanup_old_backups, h]
  · intro h
    have h' : ¬ (list_backups dir).length ≤ keep := not_le.mpr h
    refine ⟨by simp [cleanup_old_backups, h'], ?_, ?_, ?_⟩
    · simp [cleanup_old_backups, h', List.length_drop]
    · intro d hd k hk
      simp only [cleanup_old_backups, h', if_neg h'] at hd
      exact take_drop_le keep hd hk
    · simp only [cleanup_old_backups, h', if_neg h']
      exact list_backups_filter_drop keep hnd

/-- Fifteen archive names with increasing timestamps (witness data). -/
def sampleBackupDir : List FileName :=
  ["backup_01.tar.gz".data, "backup_02.tar.gz".data, "backup_03.tar.gz".data,
   "backup_04.tar.gz".data, "backup_05.tar.gz".data, "backup_06.tar.gz".data,
   "backup_07.tar.gz".data, "backup_08.tar.gz".data, "backup_09.tar.gz".data,
   "backup_10.tar.gz".data, "backup_11.tar.gz".data, "backup_12.tar.gz".data,
   "backup_13.tar.gz".data, "backup_14.tar.gz".data, "backup_15.tar.gz".data]

/-- Claim C3 witness: with 15 archives and `keep = 10`, exactly the 5 oldest
are deleted and the 10 newest remain listed. -/
theorem cleanup_old_backups_spec_witness :
    10 < (list_backups sampleBackupDir).length ∧
    ((cleanup_old_backups 10 sampleBackupDir).1 = (list_backups sampleBackupDir).drop 10 ∧
     (cleanup_old_backups 10 sampleBackupDir).1.length =
       (list_backups sampleBackupDir).length - 10 ∧
     (∀ d ∈ (cleanup_old_backups 10 sampleBackupDir).1,
       ∀ k ∈ (list_backups sampleBackupDir).take 10, d ≤ k) ∧
     list_backups (cleanup_old_backups 10 sampleBackupDir).2 =
       (list_backups sampleBackupDir).take 10) :=
  ⟨by decide, (cleanup_old_backups_spec sampleBackupDir 10 (by decide)).2 (by decide)⟩

theorem lex_append_same_len {t₁ t₂ : List Char} (h : List.Lex (· < ·) t₁ t₂)
    (hlen : t₁.length = t₂.length) (r₁ r₂ : List Char) :
    List.Lex (· < ·) (t₁ ++ r₁) (t₂ ++ r₂) := by
  revert hlen
  induction h with
  | nil => intro hlen; simp at hlen
  | @rel a l₁ b l₂ hab => intro _; exact List.Lex.rel hab
  | @cons a l₁ l₂ h ih => intro hlen; exact List.Lex.cons (ih (by simpa using hlen))

theorem lex_append_common (p : List Char) {t₁ t₂ : List Char}
    (h : List.Lex (· < ·) t₁ t₂) (hlen : t₁.length = t₂.length) (r₁ r₂ : List Char) :
    List.Lex (· < ·) (p ++ (t₁ ++ r₁)) (p ++ (t₂ ++ r₂)) := by
  induction p with
  | nil => exact lex_append_same_len h hlen r₁ r₂
  | cons c cs ih => exact List.Lex.cons ih

theorem mkBackupName_lt {ts₁ ts₂ d₁ d₂ : List Char}
    (hlen : ts₁.length = ts₂.length) (h : List.Lex (· < ·) ts₁ ts₂) :
    mkBackupName ts₁ d₁ < mkBackupName ts₂ d₂ := by
  show List.Lex (· < ·) (mkBackupName ts₁ d₁) (mkBackupName ts₂ d₂)
  simp only [mkBackupName, List.append_assoc]
  exact lex_append_common _ h hlen _ _

/-- Claim C10: the archive created by `create_backup` is named
`backup_<timestamp>[_<description>].tar.gz`, matches the `backup_*.tar.gz`
listing pattern, appears in every later `list_backups` result, and that
result is sorted by descending filename, names with larger (newer, same-width)
timestamps strictly first. -/
theorem create_backup_listing_spec (dir : List FileName) (ts desc : List Char)
    (hts : '/' ∉ ts) (hdesc : '/' ∉ desc) :
    matchesBackupGlob (mkBackupName ts desc) = true ∧
    mkBackupName ts desc ∈ list_backups (mkBackupName ts desc :: dir) ∧
    (list_backups (mkBackupName ts desc :: dir)).Sorted geName ∧
    (∀ ts₂ d₂, ts.length = ts₂.length → List.Lex (· < ·) ts ts₂ →
      mkBackupName ts desc < mkBackupName ts₂ d₂) := by
  have hglob : matchesBackupGlob (mkBackupName ts desc) = true := by
    unfold matchesBackupGlob mkBackupName
    apply Bool.and_eq_true_iff.mpr
    constructor
    · simp only [List.append_assoc]
      exact lpre_append _ _
    · simp only [List.append_assoc]
      rw [show (7 : ℕ) = ("backup_".data).length from rfl, List.drop_left]
      rw [show ts ++ ((if desc = [] then [] else
            '_' :: desc.map (fun c => if c = ' ' then '_' else c)) ++ ".tar.gz".data)
          = (ts ++ (if desc = [] then [] else
            '_' :: desc.map (fun c => if c = ' ' then '_' else c))) ++ ".tar.gz".data by
          simp [List.append_assoc]]
      rw [List.reverse_append]
      exact lpre_append _ _
  refine ⟨hglob, ?_, sorted_list_backups _, fun ts₂ d₂ hlen h => mkBackupName_lt hlen h⟩
  rw [list_backups, List.mem_insertionSort, List.mem_filter]
  exact ⟨List.mem_cons_self _ _, hglob⟩

/-- Claim C10 witness: a concrete creation into a directory with one older
archive: the new name matches the pattern and lists first. -/
theorem create_backup_listing_spec_witness :
    matchesBackupGlob (mkBackupName "20240102_120000".data "my backup".data) = true ∧
    mkBackupName "20240102_120000".data "my backup".data ∈
      list_backups (mkBackupName "20240102_120000".data "my backup".data ::
        ["backup_20240101_000000.tar.gz".data]) ∧
    (list_backups (mkBackupName "20240102_120000".data "my backup".data ::
        ["backup_20240101_000000.tar.gz".data])).Sorted geName ∧
    (∀ ts₂ d₂, ("20240102_120000".data).length = ts₂.length →
      List.Lex (· < ·) ("20240102_120000".data) ts₂ →
      mkBackupName ("20240102_120000".data) "my backup".data < mkBackupName ts₂ d₂) :=
  create_backup_listing_spec ["backup_20240101_000000.tar.gz".data]
    ("20240102_120000".data) ("my backup".data) (by decide) (by decide)

/-!  ## Safe extraction and path traversal (claim C2)

Embedding of `backup.BackupManager._safe_extract`: paths are modelled as
component lists, `Path.resolve()` (no symlinks involved here) as lexical
normalisation of `.` / `..` / empty components, and the guard
`str(target).startswith(str(dest))` as a code-point prefix test on the
rendered absolute paths — exactly the comparison the source performs. -/

/-- Python `str.split('/')`, keeping empty pieces, with accumulator. -/
def splitSlashAux : List Char → List Char → List (List Char)
  | acc, [] => [acc.reverse]
  | acc, c :: cs => if c = '/' then acc.reverse :: splitSlashAux [] cs
                    else splitSlashAux (c :: acc) cs

/-- Split a POSIX path string into components. -/
def splitSlash (l : List Char) : List (List Char) :=
  splitSlashAux [] l

/-- Lexical `Path.resolve()` on components of an absolute path: drop empty
and `.` components, let `..` pop the previous component. -/
def resolveComps (comps : List (List Char)) : List (List Char) :=
  comps.foldl (fun acc c =>
    if c = [] ∨ c = ['.'] then acc
    else if c = ['.', '.'] then acc.dropLast
    else acc ++ [c]) []

/-- `str(Path)` for an absolute path given by its components. -/
def renderPath (comps : List (List Char)) : List Char :=
  comps.foldl (fun acc c => acc ++ '/' :: c) []

/-- `(dest / member.name).resolve()` — an absolute member name replaces
`dest` entirely (pathlib join semantics). -/
def resolveTarget (dest : List (List Char)) (member : List Char) : List (List Char) :=
  if lpre ['/'] member then resolveComps (splitSlash member)
  else resolveComps (dest ++ splitSlash member)

/-- The guard loop of `_safe_extract`: `True` iff some member fails the
`startswith` test, in which case a `ValueError` is raised (and
`restore_specific_backup` returns `False` from its security branch) before
any member is extracted; when `False`, `tar.extractall(dest)` extracts every
member. -/
def safe_extract_blocks (dest : List (List Char)) (members : List (List Char)) : Bool :=
  let d := resolveComps dest
  members.any (fun m => ! lpre (renderPath d) (renderPath (resolveTarget d m)))

/-- Componentwise containment: the real "lies inside the staging directory"
property (what the `startswith` test is meant to decide). -/
def compPrefix : List (List Char) → List (List Char) → Bool :=
  lpre

/-- Claim C2 (code bug): the guard blocks the spec's own example
`../../etc/passwd`, but a member `../temp_restore_evil/pwn` resolves to the
sibling directory `/etc/unbound/backups/temp_restore_evil` — outside the
staging directory `/etc/unbound/backups/temp_restore` — yet passes the
`str.startswith` test because the sibling's name extends the staging
directory's name, so no `ValueError` is raised and `extractall` writes the
member outside the staging directory, contradicting the claimed guarantee
that every escaping member aborts the restore with no file written. -/
theorem safe_extract_prefix_bypass :
    safe_extract_blocks
        ["etc".data, "unbound".data, "backups".data, "temp_restore".data]
        ["../temp_restore_evil/pwn".data] = false ∧
    resolveTarget
        (resolveComps ["etc".data, "unbound".data, "backups".data, "temp_restore".data])
        "../temp_restore_evil/pwn".data
      = ["etc".data, "unbound".data, "backups".data, "temp_restore_evil".data,
         "pwn".data] ∧
    compPrefix
        (resolveComps ["etc".data, "unbound".data, "backups".data, "temp_restore".data])
        (resolveTarget
          (resolveComps ["etc".data, "unbound".data, "backups".data, "temp_restore".data])
          "../temp_restore_evil/pwn".data) = false ∧
    safe_extract_blocks
        ["etc".data, "unbound".data, "backups".data, "temp_restore".data]
        ["../../etc/passwd".data] = true := by
  refine ⟨by decide, by decide, by decide, by decide⟩

/-!  ## Forwarding configuration generation (claim C6)

Embedding of `config_manager.ConfigManager.create_forwarding_config` over the
provider records of `constants.DNS_PROVIDERS`.  The generated file is the
list of its lines; `none` models "forward.conf removed/absent"
(full recursion). -/

/-- One upstream server record of the provider catalog
(`ip` / optional `port` / optional TLS `hostname` / `ipv6` flag). -/
structure UpServer where
  ip : List Char
  port : Option ℕ
  hostname : Option (List Char)
  ipv6 : Bool
deriving DecidableEq

/-- One provider record (`name`, dict key, `encrypted` flag, servers). -/
structure Provider where
  name : List Char
  key : List Char
  encrypted : Bool
  servers : List UpServer
deriving DecidableEq

/-- Python truthiness of the optional hostname field. -/
def hostnameTruthy (h : Option (List Char)) : Bool :=
  match h with
  | none => false
  | some s => s ≠ []

/-- The local `port = server.get("port", 853 if is_encrypted else 53)`. -/
def effPort (isEnc : Bool) (s : UpServer) : ℕ :=
  s.port.getD (if isEnc then 853 else 53)

/-- The `forward-addr:` line generated for one server: `ip@port#hostname`
when encrypted with a hostname, `ip@port` for a non-default port, bare `ip`
otherwise (`port` defaults to 853 when encrypted, 53 otherwise). -/
def serverAddrLine (isEnc : Bool) (s : UpServer) : List Char :=
  if isEnc && hostnameTruthy s.hostname then
    "    forward-addr: ".data ++ s.ip ++ '@' :: Nat.toDigits 10 (effPort isEnc s) ++
      '#' :: (s.hostname.getD [])
  else if effPort isEnc s ≠ 53 then
    "    forward-addr: ".data ++ s.ip ++ '@' :: Nat.toDigits 10 (effPort isEnc s)
  else
    "    forward-addr: ".data ++ s.ip

/-- The fixed comment/stanza header of the generated `forward.conf`. -/
def forwardHeader (p : Provider) : List (List Char) :=
  ["# DNS Forwarding Configuration".data,
   "# Provider: ".data ++ p.name,
   "# Encrypted: ".data ++ (if p.encrypted then "Yes (DNS-over-TLS)".data else "No".data),
   "#".data,
   "# Generated by Unbound Manager".data,
   [],
   "forward-zone:".data,
   "    name: \".\"".data]

/-- `config_manager.ConfigManager.create_forwarding_config`. -/
def create_forwarding_config (p : Provider) : Option (List (List Char)) :=
  if p.key = "none".data ∨ p.servers = [] then none
  else some (forwardHeader p ++
    (if p.encrypted then ["    forward-tls-upstream: yes".data] else []) ++
    ((p.servers.filter (fun s => !s.ipv6)).map (serverAddrLine p.encrypted)))

theorem lpre_ne_head {α : Type} [DecidableEq α] {p c : α} (h : p ≠ c) (ps cs : List α) :
    lpre (p :: ps) (c :: cs) = false := by
  simp [lpre, h]

theorem serverAddrLine_starts (isEnc : Bool) (s : UpServer) :
    ∃ r, serverAddrLine isEnc s = "    forward-addr: ".data ++ r := by
  unfold serverAddrLine
  split
  · exact ⟨_, rfl⟩
  · split
    · exact ⟨_, rfl⟩
    · exact ⟨_, rfl⟩

theorem filter_addr_header (p : Provider) :
    (forwardHeader p).filter (fun l => lpre ("    forward-addr: ".data) l) = [] := by
  apply List.filter_eq_nil_iff.mpr
  intro l hl
  simp only [forwardHeader, List.mem_cons, List.not_mem_nil, or_false] at hl
  rcases hl with h | h | h | h | h | h | h | h <;> subst h
  · decide
  · rw [show ("# Provider: ".data ++ p.name) = '#' :: (" Provider: ".data ++ p.name) from rfl]
    rw [show ("    forward-addr: ".data) = ' ' :: ("   forward-addr: ".data) from rfl]
    simp [lpre_ne_head]
  · rw [show ("# Encrypted: ".data ++ (if p.encrypted then "Yes (DNS-over-TLS)".data
        else "No".data)) = '#' :: (" Encrypted: ".data ++ _) from rfl]
    rw [show ("    forward-addr: ".data) = ' ' :: ("   forward-addr: ".data) from rfl]
    simp [lpre_ne_head]
  · decide
  · decide
  · decide
  · decide
  · decide

/-- Claim C6: for an encrypted provider (non-sentinel, nonempty servers) the
generated `forward.conf` contains `forward-tls-upstream: yes`, and its
`forward-addr:` lines are exactly one per non-IPv6 server, in order —
`ip@853#hostname` for a (default-port) server with a hostname — every IPv6
server being skipped; without encryption a server renders as `ip@port` for a
non-default port and bare `ip` otherwise. -/
theorem forwarding_config_spec (p : Provider)
    (henc : p.encrypted = true) (hkey : p.key ≠ "none".data) (hsrv : p.servers ≠ []) :
    ∃ L, create_forwarding_config p = some L ∧
      "    forward-tls-upstream: yes".data ∈ L ∧
      L.filter (fun l => lpre ("    forward-addr: ".data) l) =
        (p.servers.filter (fun s => !s.ipv6)).map (serverAddrLine true) ∧
      (∀ s : UpServer, ∀ h : List Char, s.hostname = some h → h ≠ [] →
        s.port.getD 853 = 853 →
        serverAddrLine true s = "    forward-addr: ".data ++ s.ip ++ "@853#".data ++ h) ∧
      (∀ s : UpServer, s.port.getD 53 = 53 →
        serverAddrLine false s = "    forward-addr: ".data ++ s.ip) ∧
      (∀ s : UpServer, s.port.getD 53 ≠ 53 →
        serverAddrLine false s =
          "    forward-addr: ".data ++ s.ip ++ '@' :: Nat.toDigits 10 (s.port.getD 53)) := by
  refine ⟨forwardHeader p ++ ["    forward-tls-upstream: yes".data] ++
    ((p.servers.filter (fun s => !s.ipv6)).map (serverAddrLine true)), ?_, ?_, ?_, ?_, ?_, ?_⟩
  · simp [create_forwarding_config, hkey, hsrv, henc]
  · simp
  · rw [List.filter_append, List.filter_append, filter_addr_header]
    rw [show (["    forward-tls-upstream: yes".data].filter
        (fun l => lpre ("    forward-addr: ".data) l)) = [] from by decide]
    rw [List.filter_eq_self.mpr]
    · simp
    · intro a ha
      rcases List.mem_map.mp ha with ⟨s, _, rfl⟩
      rcases serverAddrLine_starts true s with ⟨r, hr⟩
      rw [hr]
      exact lpre_append _ _
  · intro s h hh hne hport
    have hp : effPort true s = 853 := by simpa [effPort] using hport
    have ht : hostnameTruthy s.hostname = true := by
      rw [hh]
      simpa [hostnameTruthy] using hne
    unfold serverAddrLine
    rw [hp, if_pos (by simp [ht]), hh]
    simp [List.append_assoc]
    rfl
  · intro s hport
    have hp : effPort false s = 53 := by simpa [effPort] using hport
    unfold serverAddrLine
    rw [if_neg (by simp), if_neg (by simp [hp])]
  · intro s hport
    have hp : effPort false s ≠ 53 := by simpa [effPort] using hport
    unfold serverAddrLine
    rw [if_neg (by simp), if_pos hp]
    simp [effPort]

/-- The `cloudflare_malware` record of `constants.DNS_PROVIDERS`. -/
def cloudflare_malware : Provider :=
  { name := "Cloudflare (Malware Blocking)".data
    key := "cloudflare_malware".data
    encrypted := true
    servers :=
      [⟨"1.1.1.2".data, some 853, some "security.cloudflare-dns.com".data, false⟩,
       ⟨"1.0.0.2".data, some 853, some "security.cloudflare-dns.com".data, false⟩] }

/-- Claim C6 witness: the encrypted two-IPv4-server provider
`cloudflare_malware` yields `forward-tls-upstream: yes` and exactly two
`forward-addr: ip@853#hostname` lines. -/
theorem forwarding_config_spec_witness :
    (∃ L, create_forwarding_config cloudflare_malware = some L ∧
      "    forward-tls-upstream: yes".data ∈ L ∧
      L.filter (fun l => lpre ("    forward-addr: ".data) l) =
        (cloudflare_malware.servers.filter (fun s => !s.ipv6)).map (serverAddrLine true) ∧
      (∀ s : UpServer, ∀ h : List Char, s.hostname = some h → h ≠ [] →
        s.port.getD 853 = 853 →
        serverAddrLine true s = "    forward-addr: ".data ++ s.ip ++ "@853#".data ++ h) ∧
      (∀ s : UpServer, s.port.getD 53 = 53 →
        serverAddrLine false s = "    forward-addr: ".data ++ s.ip) ∧
      (∀ s : UpServer, s.port.getD 53 ≠ 53 →
        serverAddrLine false s =
          "    forward-addr: ".data ++ s.ip ++ '@' :: Nat.toDigits 10 (s.port.getD 53))) ∧
    ((cloudflare_malware.servers.filter (fun s => !s.ipv6)).map (serverAddrLine true)).length
      = 2 ∧
    (cloudflare_malware.servers.filter (fun s => !s.ipv6)).map (serverAddrLine true) =
      ["    forward-addr: 1.1.1.2@853#security.cloudflare-dns.com".data,
       "    forward-addr: 1.0.0.2@853#security.cloudflare-dns.com".data] :=
  ⟨forwarding_config_spec cloudflare_malware rfl (by decide) (by decide),
   by decide, by decide⟩

/-!  ## Access-control rule editing (claim C5)

Embeddings of `config_manager.ConfigManager.edit_access_control` (rule
parsing) and `ConfigManager._update_access_control` (full-rule-set rewrite).
The server settings file is the list of its raw lines (as produced by
`readlines`, so a line may carry its trailing newline). -/

/-- The substring `access-control:` searched for by both functions. -/
def acPat : List Char := "access-control:".data

/-- The marker comment `# Access Control` located by the rewrite. -/
def markerPat : List Char := "# Access Control".data

/-- One parsed `(network, action)` rule. -/
abbrev ACRule := List Char × List Char

/-- Rule parsing for one line (`edit_access_control`): when the line contains
`access-control:`, strip it, take the Python `split('access-control:')[1]`
segment, whitespace-split it, and keep the first two tokens. -/
def parseACLine (line : List Char) : Option ACRule :=
  if containsSub acPat line then
    match segmentAfterFirst acPat (pyStrip line) with
    | none => none
    | some seg =>
      match pySplitWs (pyStrip seg) with
      | net :: act :: _ => some (net, act)
      | _ => none
  else none

/-- The ordered rule list parsed out of the file (`edit_access_control`). -/
def parseAC (lines : List (List Char)) : List ACRule :=
  lines.filterMap parseACLine

/-- The line written for one rule by `_update_access_control`. -/
def mkACLine (r : ACRule) : List Char :=
  "    access-control: ".data ++ r.1 ++ ' ' :: r.2 ++ ['\n']

/-- The marker line inserted when the marker comment is missing. -/
def mkMarkerLine : List Char := "    # Access Control\n".data

/-- Python `list.insert` with a possibly negative index. -/
def pyInsert {α : Type} (l : List α) (i : ℤ) (a : α) : List α :=
  let j : ℤ := if i < 0 then max (l.length + i) 0 else min i l.length
  l.insertIdx j.toNat a

/-- The rule-insertion loop of `_update_access_control`: insert each rule
line at `insert_index`, incrementing it. -/
def insertRules (rules : List ACRule) (start : ℤ) (ls : List (List Char)) :
    List (List Char) :=
  (rules.foldl (fun acc r => (pyInsert acc.1 acc.2 (mkACLine r), acc.2 + 1))
    (ls, start)).1

/-- Index search of the blank-line fallback: first index `> 0` whose line
strips to empty. -/
def findBlankIdx : ℕ → List (List Char) → Option ℕ
  | _, [] => none
  | i, l :: ls =>
    if pyStrip l = [] ∧ 0 < i then some i else findBlankIdx (i + 1) ls

/-- `config_manager.ConfigManager._update_access_control`: drop every line
containing `access-control:`, locate the insertion point (after the marker
comment; else at the first blank line, inserting the marker; else Python's
`insert(-1, ...)` behaviour), and insert all current rule lines there. -/
def updateACRules (rules : List ACRule) (lines : List (List Char)) :
    List (List Char) :=
  let newLines := lines.filter (fun l => !containsSub acPat l)
  match newLines.findIdx? (fun l => containsSub markerPat l) with
  | some i => insertRules rules (i + 1) newLines
  | none =>
    match findBlankIdx 0 newLines with
    | some j => insertRules rules (j + 1) (newLines.insertIdx j mkMarkerLine)
    | none => insertRules rules (-1) newLines

/-- Well-formedness of a rule as entered at the prompts: nonempty
whitespace-free tokens not containing the `access-control:` pattern. -/
def RuleOk (r : ACRule) : Prop :=
  r.1 ≠ [] ∧ r.2 ≠ [] ∧ (∀ c ∈ r.1, pySpace c = false) ∧ (∀ c ∈ r.2, pySpace c = false) ∧
    containsSub acPat (r.1 ++ ' ' :: r.2) = false

instance : DecidablePred RuleOk := fun r => by
  unfold RuleOk
  infer_instance

theorem splitFirst_pre (p y : List Char) (hp : p ≠ []) :
    splitFirst p (p ++ y) = some ([], y) := by
  match p, hp with
  | c :: cs, _ =>
    show splitFirst (c :: cs) ((c :: cs) ++ y) = some ([], y)
    rw [List.cons_append, splitFirst]
    rw [show lpre (c :: cs) (c :: (cs ++ y)) = true from lpre_append _ _]
    simp only [if_true]
    rw [show ((c :: (cs ++ y)).drop (c :: cs).length) = y from List.drop_left' (by simp)]

theorem containsSub_mid (x p y : List Char) (hp : p ≠ []) :
    containsSub p (x ++ p ++ y) = true := by
  induction x with
  | nil =>
    simp only [List.nil_append]
    rw [containsSub, splitFirst_pre p y hp]
    rfl
  | cons c cs ih =>
    rw [containsSub]
    rw [List.cons_append]
    simp only [splitFirst]
    split
    · rfl
    · rw [containsSub] at ih
      rcases hs : splitFirst p (cs ++ p ++ y) with _ | ⟨a, b⟩
      · rw [hs] at ih
        simp at ih
      · simp [hs]

theorem containsSub_cons_skip {p : List Char} {c : Char} {t : List Char}
    (h : lpre p (c :: t) = false) : containsSub p (c :: t) = containsSub p t := by
  simp only [containsSub, splitFirst, h, Bool.false_eq_true, if_false]
  rcases hs : splitFirst p t with _ | ⟨a, b⟩ <;> simp [hs]

theorem dropWhile_append_all {p : Char → Bool} {l₁ l₂ : List Char}
    (h : ∀ c ∈ l₁, p c = true) : List.dropWhile p (l₁ ++ l₂) = List.dropWhile p l₂ := by
  induction l₁ with
  | nil => rfl
  | cons c cs ih =>
    rw [List.cons_append, List.dropWhile_cons, if_pos (h c (by simp))]
    exact ih (fun d hd => h d (by simp [hd]))

theorem pyStrip_concat (pre mid suf : List Char)
    (hpre : ∀ c ∈ pre, pySpace c = true) (hsuf : ∀ c ∈ suf, pySpace c = true)
    (hh : ∃ m t, mid = m :: t ∧ pySpace m = false)
    (hl : ∃ t m, mid = t ++ [m] ∧ pySpace m = false) :
    pyStrip (pre ++ mid ++ suf) = mid := by
  obtain ⟨m, t, hmid, hm⟩ := hh
  obtain ⟨t', m', hmid', hm'⟩ := hl
  rw [pyStrip, List.append_assoc, dropWhile_append_all hpre]
  rw [hmid, List.cons_append, List.dropWhile_cons, if_neg (by simp [hm]), ← List.cons_append,
    ← hmid]
  rw [List.reverse_append,
    dropWhile_append_all (fun c hc => hsuf c (List.mem_reverse.mp hc))]
  have hrev : List.dropWhile pySpace mid.reverse = mid.reverse := by
    rw [hmid', List.reverse_append, List.reverse_singleton, List.singleton_append,
      List.dropWhile_cons, if_neg (by simp [hm'])]
  rw [hrev, List.reverse_reverse]

theorem wordsAux_word {w : List Char} (r acc : List Char)
    (hw : ∀ c ∈ w, pySpace c = false) :
    wordsAux acc (w ++ r) = wordsAux (w.reverse ++ acc) r := by
  induction w generalizing acc with
  | nil => simp
  | cons c cs ih =>
    rw [List.cons_append, wordsAux, if_neg (by simp [hw c (by simp)])]
    rw [ih _ (fun d hd => hw d (by simp [hd]))]
    simp

theorem pySplitWs_two (n a : List Char) (hn : n ≠ []) (ha : a ≠ [])
    (hnw : ∀ c ∈ n, pySpace c = false) (haw : ∀ c ∈ a, pySpace c = false) :
    pySplitWs (n ++ ' ' :: a) = [n, a] := by
  rw [pySplitWs, wordsAux_word _ _ hnw, List.append_nil, wordsAux]
  rw [if_pos (by decide), if_neg (by simp [hn])]
  have : wordsAux [] a = [a] := by
    have h1 : wordsAux [] (a ++ []) = wordsAux (a.reverse ++ []) [] :=
      wordsAux_word _ _ haw
    rw [List.append_nil, List.append_nil] at h1
    rw [h1, wordsAux, if_neg (by simp [ha]), List.reverse_reverse]
  rw [this, List.reverse_reverse]

theorem parseACLine_none {l : List Char} (h : containsSub acPat l = false) :
    parseACLine l = none := by
  simp [parseACLine, h]

theorem containsSub_mid' (x p y : List Char) (hp : p ≠ []) :
    containsSub p (x ++ (p ++ y)) = true := by
  rw [← List.append_assoc]
  exact containsSub_mid x p y hp

theorem containsSub_mkACLine (r : ACRule) : containsSub acPat (mkACLine r) = true := by
  have hm : mkACLine r
      = "    ".data ++ (acPat ++ (' ' :: (r.1 ++ ' ' :: (r.2 ++ ['\n'])))) := by
    simp only [mkACLine, List.append_assoc, List.cons_append]
    rfl
  rw [hm]
  exact containsSub_mid' _ _ _ (by decide)

theorem parse_mkACLine {r : ACRule} (h : RuleOk r) : parseACLine (mkACLine r) = some r := by
  obtain ⟨hn, ha, hnw, haw, hno⟩ := h
  obtain ⟨t', m', ha', hm'⟩ : ∃ t' m', r.2 = t' ++ [m'] ∧ pySpace m' = false := by
    rcases List.eq_nil_or_concat r.2 with h | ⟨t', m', h⟩
    · exact absurd h ha
    · refine ⟨t', m', by simpa [List.concat_eq_append] using h, ?_⟩
      exact haw m' (by simp [h, List.concat_eq_append])
  rw [parseACLine, if_pos (containsSub_mkACLine r)]
  have hpre0 : lpre acPat (' ' :: (r.1 ++ ' ' :: r.2)) = false := by
    rw [show acPat = 'a' :: "ccess-control:".data from rfl]
    exact lpre_ne_head (by decide) _ _
  have hstrip : pyStrip (mkACLine r) = acPat ++ ' ' :: (r.1 ++ ' ' :: r.2) := by
    have hm2 : mkACLine r
        = "    ".data ++ (acPat ++ ' ' :: (r.1 ++ ' ' :: r.2)) ++ ['\n'] := by
      simp only [mkACLine, List.append_assoc, List.cons_append]
      rfl
    rw [hm2]
    apply pyStrip_concat
    · decide
    · decide
    · exact ⟨'a', "ccess-control:".data ++ ' ' :: (r.1 ++ ' ' :: r.2), rfl, by decide⟩
    · refine ⟨acPat ++ ' ' :: (r.1 ++ ' ' :: t'), m', ?_, hm'⟩
      rw [ha']
      simp [List.append_assoc]
  have hs : splitFirst acPat (' ' :: (r.1 ++ ' ' :: r.2)) = none := by
    have h1 : containsSub acPat (' ' :: (r.1 ++ ' ' :: r.2)) = false := by
      rw [containsSub_cons_skip hpre0]
      exact hno
    rw [containsSub] at h1
    exact Option.not_isSome_iff_eq_none.mp (by simp [h1])
  have hseg : segmentAfterFirst acPat (acPat ++ ' ' :: (r.1 ++ ' ' :: r.2))
      = some (' ' :: (r.1 ++ ' ' :: r.2)) := by
    simp only [segmentAfterFirst, splitFirst_pre acPat _ (show acPat ≠ [] by decide), hs]
  have hstrip2 : pyStrip (' ' :: (r.1 ++ ' ' :: r.2)) = r.1 ++ ' ' :: r.2 := by
    rw [show (' ' :: (r.1 ++ ' ' :: r.2)) = [' '] ++ (r.1 ++ ' ' :: r.2) ++ [] by simp]
    apply pyStrip_concat
    · decide
    · decide
    · rcases List.exists_cons_of_ne_nil hn with ⟨m, t, hmt⟩
      exact ⟨m, t ++ ' ' :: r.2, by simp [hmt], hnw m (by simp [hmt])⟩
    · refine ⟨r.1 ++ ' ' :: t', m', ?_, hm'⟩
      rw [ha']
      simp
  simp only [hstrip, hseg, hstrip2, pySplitWs_two r.1 r.2 hn ha hnw haw]

theorem insertIdx_take_drop {α : Type} (l : List α) (a : α) :
    ∀ n, n ≤ l.length → l.insertIdx n a = l.take n ++ a :: l.drop n := by
  induction l with
  | nil =>
    intro n hn
    have h0 : n = 0 := by simpa using hn
    subst h0
    rfl
  | cons c cs ih =>
    intro n hn
    cases n with
    | zero => rfl
    | succ m =>
      rw [List.insertIdx_succ_cons, ih m (by simpa using hn)]
      rfl

theorem pyInsert_nat {α : Type} (l : List α) (a : α) (i : ℕ) (h : i ≤ l.length) :
    pyInsert l (i : ℤ) a = l.take i ++ a :: l.drop i := by
  rw [pyInsert]
  have h1 : ¬ ((i : ℤ) < 0) := by omega
  have h2 : (min (i : ℤ) (l.length : ℤ)) = (i : ℤ) := by omega
  simp only [h1, if_false, h2, Int.toNat_natCast]
  exact insertIdx_take_drop l a i h

theorem insertRules_splice (rules : List ACRule) :
    ∀ (i : ℕ) (ls : List (List Char)), i ≤ ls.length →
    insertRules rules (i : ℤ) ls = ls.take i ++ rules.map mkACLine ++ ls.drop i := by
  induction rules with
  | nil =>
    intro i ls h
    simp [insertRules, List.take_append_drop]
  | cons r rs ih =>
    intro i ls h
    have hstep : insertRules (r :: rs) (i : ℤ) ls
        = insertRules rs ((i : ℤ) + 1) (pyInsert ls (i : ℤ) (mkACLine r)) := by
      rw [insertRules, insertRules, List.foldl_cons]
    rw [hstep, pyInsert_nat ls (mkACLine r) i h]
    have hcast : ((i : ℤ) + 1) = ((i + 1 : ℕ) : ℤ) := by omega
    have hlen : i + 1 ≤ (ls.take i ++ mkACLine r :: ls.drop i).length := by
      simp
      omega
    rw [hcast, ih (i + 1) _ hlen]
    have htake : (ls.take i ++ mkACLine r :: ls.drop i).take (i + 1)
        = ls.take i ++ [mkACLine r] := by
      rw [show ls.take i ++ mkACLine r :: ls.drop i
          = (ls.take i ++ [mkACLine r]) ++ ls.drop i by simp]
      exact List.take_left' (by simp; omega)
    have hdrop : (ls.take i ++ mkACLine r :: ls.drop i).drop (i + 1) = ls.drop i := by
      rw [show ls.take i ++ mkACLine r :: ls.drop i
          = (ls.take i ++ [mkACLine r]) ++ ls.drop i by simp]
      exact List.drop_left' (by simp; omega)
    rw [htake, hdrop]
    simp

theorem filterMap_eq_self_of_some {α : Type} {f : α → Option α} {l : List α}
    (h : ∀ a ∈ l, f a = some a) : l.filterMap f = l := by
  induction l with
  | nil => rfl
  | cons a t ih =>
    rw [List.filterMap_cons, h a (by simp)]
    rw [ih (fun b hb => h b (by simp [hb]))]

theorem parseAC_of_clean {X : List (List Char)}
    (h : ∀ l ∈ X, containsSub acPat l = false) : X.filterMap parseACLine = [] := by
  apply List.filterMap_eq_nil_iff.mpr
  intro l hl
  exact parseACLine_none (h l hl)

theorem updateAC_marker {lines : List (List Char)} {rules : List ACRule} {i : ℕ}
    (hm : (lines.filter (fun l => !containsSub acPat l)).findIdx?
      (fun l => containsSub markerPat l) = some i) :
    updateACRules rules lines =
      (lines.filter (fun l => !containsSub acPat l)).take (i + 1) ++
      rules.map mkACLine ++
      (lines.filter (fun l => !containsSub acPat l)).drop (i + 1) := by
  have hlt : i < (lines.filter (fun l => !containsSub acPat l)).length := by
    rcases List.findIdx?_eq_some_iff_getElem.mp hm with ⟨hlt, _⟩
    exact hlt
  rw [updateACRules]
  simp only [hm]
  rw [show ((i : ℤ) + 1) = (((i + 1 : ℕ)) : ℤ) from by push_cast; ring]
  exact insertRules_splice rules (i + 1) _ (by omega)

theorem parseAC_update {lines : List (List Char)} {rules : List ACRule} {i : ℕ}
    (hm : (lines.filter (fun l => !containsSub acPat l)).findIdx?
      (fun l => containsSub markerPat l) = some i)
    (hok : ∀ r ∈ rules, RuleOk r) :
    parseAC (updateACRules rules lines) = rules := by
  rw [updateAC_marker hm, parseAC, List.filterMap_append, List.filterMap_append]
  have hcl : ∀ l ∈ lines.filter (fun l => !containsSub acPat l),
      containsSub acPat l = false := by
    intro l hl
    have := (List.mem_filter.mp hl).2
    simpa using this
  rw [parseAC_of_clean (fun l hl => hcl l (List.take_subset _ _ hl))]
  rw [parseAC_of_clean (fun l hl => hcl l (List.drop_subset _ _ hl))]
  rw [List.filterMap_map]
  have hmid : List.filterMap (parseACLine ∘ mkACLine) rules = rules :=
    filterMap_eq_self_of_some (fun q hq => parse_mkACLine (hok q hq))
  rw [hmid]
  simp

theorem filtered_update {lines : List (List Char)} {rules : List ACRule} {i : ℕ}
    (hm : (lines.filter (fun l => !containsSub acPat l)).findIdx?
      (fun l => containsSub markerPat l) = some i) :
    (updateACRules rules lines).filter (fun l => !containsSub acPat l)
      = lines.filter (fun l => !containsSub acPat l) := by
  rw [updateAC_marker hm, List.filter_append, List.filter_append]
  have hcl : ∀ l ∈ lines.filter (fun l => !containsSub acPat l),
      (!containsSub acPat l) = true := by
    intro l hl
    exact (List.mem_filter.mp hl).2
  have ht : List.filter (fun l => !containsSub acPat l)
      ((lines.filter (fun l => !containsSub acPat l)).take (i + 1))
      = (lines.filter (fun l => !containsSub acPat l)).take (i + 1) :=
    List.filter_eq_self.mpr (fun l hl => hcl l (List.take_subset _ _ hl))
  have hd : List.filter (fun l => !containsSub acPat l)
      ((lines.filter (fun l => !containsSub acPat l)).drop (i + 1))
      = (lines.filter (fun l => !containsSub acPat l)).drop (i + 1) :=
    List.filter_eq_self.mpr (fun l hl => hcl l (List.drop_subset _ _ hl))
  have hmm : List.filter (fun l => !containsSub acPat l) (rules.map mkACLine) = [] :=
    List.filter_eq_nil_iff.mpr (fun l hl => by
      rcases List.mem_map.mp hl with ⟨q, _, rfl⟩
      simp [containsSub_mkACLine])
  rw [ht, hmm, hd, List.append_nil, List.take_append_drop]

theorem eraseIdx_append_singleton {α : Type} (l : List α) (x : α) :
    (l ++ [x]).eraseIdx l.length = l := by
  rw [List.eraseIdx_eq_take_drop_succ, List.take_left]
  rw [List.drop_eq_nil_of_le (by simp), List.append_nil]

/-- Claim C5: with the `# Access Control` marker present in the server
settings file, every rewrite stores the current rules as consecutive
`access-control:` lines immediately after the marker (replacing all previous
ones); adding a rule and re-parsing returns exactly the prior rules plus the
added one, in order; removing the added rule by its index returns the parsed
rule set to its prior state. -/
theorem access_control_round_trip
    (lines : List (List Char)) (r : ACRule) (i : ℕ)
    (hm : (lines.filter (fun l => !containsSub acPat l)).findIdx?
      (fun l => containsSub markerPat l) = some i)
    (hcur : ∀ q ∈ parseAC lines, RuleOk q) (hr : RuleOk r) :
    (∀ rules : List ACRule,
      updateACRules rules lines =
        (lines.filter (fun l => !containsSub acPat l)).take (i + 1) ++
        rules.map mkACLine ++
        (lines.filter (fun l => !containsSub acPat l)).drop (i + 1)) ∧
    parseAC (updateACRules (parseAC lines ++ [r]) lines) = parseAC lines ++ [r] ∧
    parseAC (updateACRules ((parseAC lines ++ [r]).eraseIdx (parseAC lines).length)
        (updateACRules (parseAC lines ++ [r]) lines)) = parseAC lines := by
  have hok1 : ∀ q ∈ parseAC lines ++ [r], RuleOk q := by
    intro q hq
    rcases List.mem_append.mp hq with h | h
    · exact hcur q h
    · rw [List.mem_singleton.mp h]
      exact hr
  have hadd : parseAC (updateACRules (parseAC lines ++ [r]) lines)
      = parseAC lines ++ [r] := parseAC_update hm hok1
  have herase : (parseAC lines ++ [r]).eraseIdx (parseAC lines).length
      = parseAC lines := eraseIdx_append_singleton _ _
  have hm2 : ((updateACRules (parseAC lines ++ [r]) lines).filter
        (fun l => !containsSub acPat l)).findIdx?
      (fun l => containsSub markerPat l) = some i := by
    rw [filtered_update hm]
    exact hm
  refine ⟨fun rules => updateAC_marker hm, hadd, ?_⟩
  rw [herase]
  exact parseAC_update hm2 hcur

/-- A small server settings file with the marker and one default rule
(witness data). -/
def sampleServerConf : List (List Char) :=
  ["server:\n".data,
   "    # Access Control\n".data,
   "    access-control: 127.0.0.0/8 allow\n".data,
   "    interface: 0.0.0.0\n".data]

/-- Claim C5 witness: adding `(203.0.113.0/24, allow)` to the sample file and
re-parsing yields the default rule plus the added one; removing it by index
restores the prior single-rule set. -/
theorem access_control_round_trip_witness :
    (∀ rules : List ACRule,
      updateACRules rules sampleServerConf =
        (sampleServerConf.filter (fun l => !containsSub acPat l)).take 2 ++
        rules.map mkACLine ++
        (sampleServerConf.filter (fun l => !containsSub acPat l)).drop 2) ∧
    parseAC (updateACRules
        (parseAC sampleServerConf ++ [("203.0.113.0/24".data, "allow".data)])
        sampleServerConf)
      = parseAC sampleServerConf ++ [("203.0.113.0/24".data, "allow".data)] ∧
    parseAC (updateACRules
        ((parseAC sampleServerConf ++ [("203.0.113.0/24".data, "allow".data)]).eraseIdx
          (parseAC sampleServerConf).length)
        (updateACRules
          (parseAC sampleServerConf ++ [("203.0.113.0/24".data, "allow".data)])
          sampleServerConf))
      = parseAC sampleServerConf :=
  access_control_round_trip sampleServerConf ("203.0.113.0/24".data, "allow".data) 1
    (by decide) (by decide) (by decide)

/-!  ## Quick edit (claim C4)

Embedding of `config_manager.ConfigManager.quick_edit_config` for an
editable file, under the "accept every offered default" interaction (press
Enter at every `Prompt.ask`, accept the offered boolean at every
`Confirm.ask`, accept the final "Apply these changes?" default).  The file is
its list of lines (newlines stripped by the line split); the parse regex
`^\s*param:\s*(.+)$` and the rewrite regex `^(\s*)param:\s*.+$` are modelled
line-locally, faithful whenever each parameter line carries its value. -/

/-- Python `str.lower()` (ASCII suffices for these values). -/
def pyLower (l : List Char) : List Char :=
  l.map Char.toLower

/-- Python `str.strip('"')`. -/
def stripQuotes (l : List Char) : List Char :=
  ((l.dropWhile (· = '"')).reverse.dropWhile (· = '"')).reverse

/-- Match of `^\s*param:\s*(.+)$` against one line, returning the
`.strip().strip('"')` of the captured value. -/
def paramMatch (param line : List Char) : Option (List Char) :=
  let t := line.dropWhile pySpace
  if lpre (param ++ [':']) t = true ∧ t.drop (param.length + 1) ≠ [] then
    some (stripQuotes (pyStrip (t.drop (param.length + 1))))
  else none

/-- The current value shown for a parameter: first matching line
(`re.search` with `re.MULTILINE`), `none` rendered as `"not set"`. -/
def findParamValue (param : List Char) (content : List (List Char)) :
    Option (List Char) :=
  content.findSome? (fun line => paramMatch param line)

/-- Whether the rewrite regex `^(\s*)param:\s*.+$` hits a line. -/
def paramLineHit (param line : List Char) : Bool :=
  (paramMatch param line).isSome

/-- The parameters prompted as numbers in `quick_edit_config`. -/
def numericParams : List (List Char) :=
  ["port".data, "num-threads".data, "verbosity".data, "val-log-level".data]

/-- The parameters prompted as yes/no confirmations in `quick_edit_config`. -/
def booleanParams : List (List Char) :=
  ["do-ip4".data, "do-ip6".data, "prefetch".data, "serve-expired".data,
   "val-permissive-mode".data, "trust-anchor-signaling".data,
   "harden-dnssec-stripped".data, "redis-expire-records".data]

/-- The editable parameters of `server.conf` in prompt order. -/
def serverParams : List (List Char) :=
  ["interface".data, "port".data, "num-threads".data, "msg-cache-size".data,
   "rrset-cache-size".data, "verbosity".data, "do-ip4".data, "do-ip6".data,
   "prefetch".data, "serve-expired".data]

/-- The change recorded for one parameter when the user accepts every
offered default.  Numeric and free-text parameters echo their current value
(no change; an absent free-text parameter defaults to the empty, falsy
string; an absent numeric parameter has no default, `rich` re-asks on empty
input, so the accept-only interaction never completes — modelled as no
change and excluded by the theorems' hypotheses).  A boolean parameter is
re-entered through `Confirm.ask` whose default is `current.lower() == "yes"`
(`False` when absent) and is recorded whenever the canonical token differs
from the stored text. -/
def changeFor (content : List (List Char)) (p : List Char) : Option (List Char) :=
  if p ∈ numericParams then none
  else if p ∈ booleanParams then
    match findParamValue p content with
    | some cur =>
      let newStr := if pyLower cur = "yes".data then "yes".data else "no".data
      if newStr ≠ cur then some newStr else none
    | none => some ("no".data)
  else none

/-- The ordered change list collected by the prompt loop. -/
def changesFor (params : List (List Char)) (content : List (List Char)) :
    List (List Char × List Char) :=
  params.filterMap (fun p => (changeFor content p).map (fun v => (p, v)))

/-- Applying one change: `re.sub` rewrites every matching line to
`<indent>param: value`; with no match the line `    param: value` is
appended. -/
def applyChange (content : List (List Char)) (pv : List Char × List Char) :
    List (List Char) :=
  if content.any (fun line => paramLineHit pv.1 line) then
    content.map (fun line =>
      if paramLineHit pv.1 line then
        line.takeWhile pySpace ++ pv.1 ++ ": ".data ++ pv.2
      else line)
  else content ++ ["    ".data ++ pv.1 ++ ": ".data ++ pv.2]

/-- `quick_edit_config` under the accept-all-defaults interaction: returns
the final file content and whether a timestamped backup copy was created
(a backup is taken exactly when a nonempty change set is applied). -/
def quick_edit_accept_all (params : List (List Char)) (content : List (List Char)) :
    List (List Char) × Bool :=
  let changes := changesFor params content
  if changes = [] then (content, false)
  else (changes.foldl applyChange content, true)

/-- A `server.conf` whose boolean `do-ip4` is stored as `Yes`
(counterexample data). -/
def sampleQuickConf : List (List Char) :=
  ["server:".data,
   "    interface: 0.0.0.0".data,
   "    port: 53".data,
   "    num-threads: 2".data,
   "    msg-cache-size: 64m".data,
   "    rrset-cache-size: 128m".data,
   "    verbosity: 1".data,
   "    do-ip4: Yes".data,
   "    do-ip6: no".data,
   "    prefetch: yes".data,
   "    serve-expired: yes".data]

/-- Claim C4 (counterexample): on an existing editable file storing
`do-ip4: Yes`, accepting every offered default still records the
canonicalisation change `do-ip4: yes`, rewrites the file (it is not
byte-identical) and creates a timestamped backup — refuting the claim's
universal quantification over every existing editable configuration file. -/
theorem quick_edit_accept_all_rewrites_bool :
    changesFor serverParams sampleQuickConf = [("do-ip4".data, "yes".data)] ∧
    (quick_edit_accept_all serverParams sampleQuickConf).2 = true ∧
    (quick_edit_accept_all serverParams sampleQuickConf).1 ≠ sampleQuickConf ∧
    (quick_edit_accept_all serverParams sampleQuickConf).1 =
      (sampleQuickConf.take 7 ++ ["    do-ip4: yes".data] ++ sampleQuickConf.drop 8) := by
  refine ⟨by decide, by decide, by decide, by decide⟩

/-- Claim C4 (amended): accepting every current value leaves the file
byte-identical and creates no backup, provided every numeric parameter is
present and every boolean parameter is present storing exactly the canonical
token `yes` or `no`; a boolean stored in any other spelling (or absent) is
canonicalised, rewriting the file and creating a backup. -/
theorem quick_edit_no_changes_identity
    (params : List (List Char)) (content : List (List Char))
    (hb : ∀ p ∈ params, p ∈ booleanParams →
      ∃ v, findParamValue p content = some v ∧ (v = "yes".data ∨ v = "no".data))
    (hn : ∀ p ∈ params, p ∈ numericParams → findParamValue p content ≠ none) :
    changesFor params content = [] ∧
    quick_edit_accept_all params content = (content, false) := by
  have hch : changesFor params content = [] := by
    apply List.filterMap_eq_nil_iff.mpr
    intro p hp
    have hnone : changeFor content p = none := by
      rw [changeFor]
      by_cases h1 : p ∈ numericParams
      · rw [if_pos h1]
      · rw [if_neg h1]
        by_cases h2 : p ∈ booleanParams
        · rw [if_pos h2]
          rcases hb p hp h2 with ⟨w, hw, hyn⟩
          rw [hw]
          rcases hyn with h | h <;> subst h <;> decide
        · rw [if_neg h2]
    rw [hnone]
    rfl
  refine ⟨hch, ?_⟩
  rw [quick_edit_accept_all, hch]
  rfl

/-- Claim C4 witness: on the canonical file (the counterexample file with
`do-ip4: yes`), accepting every current value changes nothing and creates no
backup. -/
theorem quick_edit_no_changes_identity_witness :
    changesFor serverParams
        (sampleQuickConf.take 7 ++ ["    do-ip4: yes".data] ++ sampleQuickConf.drop 8)
      = [] ∧
    quick_edit_accept_all serverParams
        (sampleQuickConf.take 7 ++ ["    do-ip4: yes".data] ++ sampleQuickConf.drop 8)
      = (sampleQuickConf.take 7 ++ ["    do-ip4: yes".data] ++ sampleQuickConf.drop 8,
         false) :=
  quick_edit_no_changes_identity serverParams _ (by decide) (by decide)

/-!  ## Version update workflow (claim C1)

Embedding of `installer.UnboundInstaller.update_unbound`.  The outcome of
each external step is an environment flag; the workflow is the source's
control flow over those flags: checked `run_command` calls raise on failure
(modelled by branching into the `except` handler), download failure and a
missing extracted source directory return early without touching the
service, the post-start status check raises when the service is not active,
and a failing `dig` test only prints a warning.  The handler restores the
pre-update backup via `restore_specific_backup` (which never raises and
itself restarts the service) and then runs `systemctl start` in checked
mode, whose failure escapes the function. -/

/-- Outcomes of the external steps of one `update_unbound` run. -/
structure UpdateEnv where
  /-- some download method (requests / wget / curl) succeeded -/
  downloadOk : Bool
  /-- `tar -xzf` exited 0 (checked: raises otherwise) -/
  extractCmdOk : Bool
  /-- the extracted source directory exists -/
  sourceDirOk : Bool
  /-- `./configure` exited 0 (checked) -/
  configureOk : Bool
  /-- `make -jN` exited 0 (checked) -/
  compileOk : Bool
  /-- `systemctl stop unbound` exited 0 (checked) -/
  stopCmdOk : Bool
  /-- `make install` and `ldconfig` exited 0 (checked) -/
  installCmdOk : Bool
  /-- `systemctl start unbound` exited 0 (checked) -/
  startCmdOk : Bool
  /-- `check_service_status` reports active after the start -/
  serviceActiveAfterStart : Bool
  /-- the live `dig @127.0.0.1 example.com` test yielded an answer -/
  digOk : Bool
  /-- `restore_specific_backup` succeeded (it catches its own errors) -/
  restoreFilesOk : Bool
  /-- the `restart_service` performed inside the restore succeeded -/
  restoreRestartOk : Bool
  /-- the handler's checked `systemctl start unbound` exited 0 -/
  handlerStartCmdOk : Bool
deriving DecidableEq

/-- Observable outcome of the workflow. -/
structure UpdateOutcome where
  /-- the pre-update backup was restored over the live configuration -/
  backupRestored : Bool
  /-- the resolver service is active when the workflow ends -/
  serviceActive : Bool
  /-- an exception escaped `update_unbound` -/
  escapedException : Bool
  /-- only the `⚠ DNS resolution test failed` warning was printed -/
  warnedDigFailed : Bool
deriving DecidableEq

/-- The `except Exception` handler: clean the temp dir, restore the backup
(never raises; on success it also restarts the service), then a checked
`systemctl start` whose failure escapes. -/
def updateHandler (env : UpdateEnv) (activeAtRaise : Bool) : UpdateOutcome :=
  let activeAfterRestore :=
    if env.restoreFilesOk then env.restoreRestartOk else activeAtRaise
  if env.handlerStartCmdOk then
    { backupRestored := env.restoreFilesOk, serviceActive := true,
      escapedException := false, warnedDigFailed := false }
  else
    { backupRestored := env.restoreFilesOk, serviceActive := activeAfterRestore,
      escapedException := true, warnedDigFailed := false }

/-- `installer.UnboundInstaller.update_unbound` (after the backup has been
created and a version selected; the service is running on entry). -/
def update_unbound (env : UpdateEnv) : UpdateOutcome :=
  if !env.downloadOk then
    { backupRestored := false, serviceActive := true,
      escapedException := false, warnedDigFailed := false }
  else if !env.extractCmdOk then updateHandler env true
  else if !env.sourceDirOk then
    { backupRestored := false, serviceActive := true,
      escapedException := false, warnedDigFailed := false }
  else if !env.configureOk then updateHandler env true
  else if !env.compileOk then updateHandler env true
  else if !env.stopCmdOk then updateHandler env true
  else if !env.installCmdOk then updateHandler env false
  else if !env.startCmdOk then updateHandler env false
  else if env.serviceActiveAfterStart then
    { backupRestored := false, serviceActive := true,
      escapedException := false, warnedDigFailed := !env.digOk }
  else updateHandler env false

/-- Whether this run raises inside the `try` block. -/
def updateRaises (env : UpdateEnv) : Bool :=
  env.downloadOk && (!env.extractCmdOk ||
    (env.sourceDirOk && (!env.configureOk || !env.compileOk || !env.stopCmdOk ||
      !env.installCmdOk || !env.startCmdOk || !env.serviceActiveAfterStart)))

/-- The environment where everything succeeds except the live dig test. -/
def envDigFail : UpdateEnv :=
  { downloadOk := true, extractCmdOk := true, sourceDirOk := true,
    configureOk := true, compileOk := true, stopCmdOk := true,
    installCmdOk := true, startCmdOk := true, serviceActiveAfterStart := true,
    digOk := false, restoreFilesOk := true, restoreRestartOk := true,
    handlerStartCmdOk := true }

/-- Claim C1 (counterexample): when compilation succeeds, the service starts
and only the post-install live-resolution (`dig`) test fails, the code prints
a warning and does not restore the pre-update backup — the claimed rollback
does not happen (the service does end active). -/
theorem update_dig_failure_no_restore :
    envDigFail.compileOk = true ∧ envDigFail.digOk = false ∧
    (update_unbound envDigFail).backupRestored = false ∧
    (update_unbound envDigFail).serviceActive = true ∧
    (update_unbound envDigFail).warnedDigFailed = true := by
  refine ⟨rfl, rfl, by decide, by decide, by decide⟩

/-- Claim C1 (amended): the rollback happens exactly for exceptions raised
inside the `try` block — in particular when the post-install service-status
check fails — restoring the pre-update backup and starting the service
(ending active provided restore and the handler's start succeed); a failing
live dig test while the service is active only warns, with no rollback, the
service remaining active. -/
theorem update_rollback_on_exception (env : UpdateEnv)
    (hr : env.restoreFilesOk = true) (hs : env.handlerStartCmdOk = true) :
    (updateRaises env = true →
      (update_unbound env).backupRestored = true ∧
      (update_unbound env).serviceActive = true ∧
      (update_unbound env).escapedException = false) ∧
    (env.downloadOk = true → env.extractCmdOk = true → env.sourceDirOk = true →
     env.configureOk = true → env.compileOk = true → env.stopCmdOk = true →
     env.installCmdOk = true → env.startCmdOk = true →
     env.serviceActiveAfterStart = false →
      (update_unbound env).backupRestored = true ∧
      (update_unbound env).serviceActive = true) ∧
    (env.downloadOk = true → env.extractCmdOk = true → env.sourceDirOk = true →
     env.configureOk = true → env.compileOk = true → env.stopCmdOk = true →
     env.installCmdOk = true → env.startCmdOk = true →
     env.serviceActiveAfterStart = true → env.digOk = false →
      (update_unbound env).backupRestored = false ∧
      (update_unbound env).serviceActive = true ∧
      (update_unbound env).warnedDigFailed = true) := by
  have hh : ∀ a, updateHandler env a =
      { backupRestored := true, serviceActive := true,
        escapedException := false, warnedDigFailed := false } := by
    intro a
    rw [updateHandler, if_pos hs, hr]
  refine ⟨?_, ?_, ?_⟩
  · intro hraise
    rw [updateRaises] at hraise
    rw [update_unbound]
    by_cases h1 : env.downloadOk = true
    case neg => simp [h1] at hraise
    rw [if_neg (by simp [h1])]
    by_cases h2 : env.extractCmdOk = true
    case neg =>
      rw [if_pos (by simp [Bool.not_eq_true] at h2; simp [h2]), hh]
      exact ⟨rfl, rfl, rfl⟩
    rw [if_neg (by simp [h2])]
    by_cases h3 : env.sourceDirOk = true
    case neg =>
      rw [Bool.not_eq_true] at h3
      simp [h1, h2, h3] at hraise
    rw [if_neg (by simp [h3])]
    by_cases h4 : env.configureOk = true
    case neg =>
      rw [if_pos (by simp [Bool.not_eq_true] at h4; simp [h4]), hh]
      exact ⟨rfl, rfl, rfl⟩
    rw [if_neg (by simp [h4])]
    by_cases h5 : env.compileOk = true
    case neg =>
      rw [if_pos (by simp [Bool.not_eq_true] at h5; simp [h5]), hh]
      exact ⟨rfl, rfl, rfl⟩
    rw [if_neg (by simp [h5])]
    by_cases h6 : env.stopCmdOk = true
    case neg =>
      rw [if_pos (by simp [Bool.not_eq_true] at h6; simp [h6]), hh]
      exact ⟨rfl, rfl, rfl⟩
    rw [if_neg (by simp [h6])]
    by_cases h7 : env.installCmdOk = true
    case neg =>
      rw [if_pos (by simp [Bool.not_eq_true] at h7; simp [h7]), hh]
      exact ⟨rfl, rfl, rfl⟩
    rw [if_neg (by simp [h7])]
    by_cases h8 : env.startCmdOk = true
    case neg =>
      rw [if_pos (by simp [Bool.not_eq_true] at h8; simp [h8]), hh]
      exact ⟨rfl, rfl, rfl⟩
    rw [if_neg (by simp [h8])]
    by_cases h9 : env.serviceActiveAfterStart = true
    case pos => simp [h1, h2, h3, h4, h5, h6, h7, h8, h9] at hraise
    rw [if_neg h9, hh]
    exact ⟨rfl, rfl, rfl⟩
  · intro h1 h2 h3 h4 h5 h6 h7 h8 h9
    rw [update_unbound, if_neg (by simp [h1]), if_neg (by simp [h2]),
      if_neg (by simp [h3]), if_neg (by simp [h4]), if_neg (by simp [h5]),
      if_neg (by simp [h6]), if_neg (by simp [h7]), if_neg (by simp [h8]),
      if_neg (by simp [h9]), hh]
    exact ⟨rfl, rfl⟩
  · intro h1 h2 h3 h4 h5 h6 h7 h8 h9 h10
    rw [update_unbound, if_neg (by simp [h1]), if_neg (by simp [h2]),
      if_neg (by simp [h3]), if_neg (by simp [h4]), if_neg (by simp [h5]),
      if_neg (by simp [h6]), if_neg (by simp [h7]), if_neg (by simp [h8]),
      if_pos h9]
    exact ⟨rfl, rfl, by simp [h10]⟩

/-- The environment where everything succeeds except the post-start
service-status check. -/
def envStatusFail : UpdateEnv :=
  { envDigFail with serviceActiveAfterStart := false, digOk := true }

/-- Claim C1 witness: the amended theorem at the environment where the
service-status check fails after a successful compile. -/
theorem update_rollback_on_exception_witness :
    (update_unbound envStatusFail).backupRestored = true ∧
    (update_unbound envStatusFail).serviceActive = true :=
  (update_rollback_on_exception envStatusFail rfl rfl).2.1
    rfl rfl rfl rfl rfl rfl rfl rfl rfl

/-!  ## Menu system and submenu sentinels (claims C7, C8)

Embedding of `menu_system.InteractiveMenu` (visible-item flattening, cursor
navigation, selection, the run loop over a finite keystroke script) and of
the standardized-submenu convention, together with the menu tree built by
`cli.UnboundManagerCLI.setup_menu`.  `SubMenu` / `create_submenu` are
imported throughout the code base but are absent from the source tree, so
the submenu dispatcher below is modelled from the spec.  Keystrokes not
relevant to the claims (letter shortcuts, digits, help) are omitted from the
key alphabet; each remaining branch follows the source. -/

/-- A Python value flowing out of a menu action: `None`, a boolean, or one
of the two submenu sentinels. -/
inductive PyVal where
  | pynone
  | pybool (b : Bool)
  | quitSentinel
  | returnSentinel
deriving DecidableEq

/-- The user's inputs inside (nested) standardized submenus: quit, return,
or pick option `i` and continue with the rest of the script. -/
inductive SubScript where
  | quit
  | ret
  | pick (i : ℕ) (s : SubScript)
deriving DecidableEq

/-- An action bound to a menu entry: a terminal operation together with its
return value, or a menu-driving function built over `create_submenu`
(the source pattern `result = create_submenu(...); if result == SubMenu.QUIT:
return False`). -/
inductive SubAction where
  | leaf (v : PyVal)
  | driver (opts : List (String × SubAction))

/-- Modelled from the spec: `create_submenu` / `SubMenu.run`, the
standardized-submenu dispatcher absent from the source tree.  Spec §4.4: it
yields the two sentinels — `'r'` RETURN (go back to the caller), `'q'` QUIT
(terminate the whole application) — uniformly, "even from three levels
deep"; per the sentinel design note, a chosen option whose action produces
the QUIT sentinel-derived bare `False` (or QUIT itself) propagates upward as
QUIT; any other completed option goes back to the caller. -/
def submenuResult : List (String × SubAction) → SubScript → PyVal
  | _, .quit => .quitSentinel
  | _, .ret => .returnSentinel
  | opts, .pick i s =>
    let r : PyVal :=
      match opts[i]? with
      | none => .pynone
      | some (_, .leaf v) => v
      | some (_, .driver opts2) =>
        if submenuResult opts2 s = .quitSentinel then .pybool false else .pynone
    if r = .pybool false ∨ r = .quitSentinel then .quitSentinel else .returnSentinel

/-- A menu-driving function of the source (`view_menu`,
`manage_services_advanced`, `manage_configuration`, ...): runs its submenu
and converts `SubMenu.QUIT` into the boolean `False` return (any other
outcome falls through to Python's implicit `None`). -/
def menuDrivingFn (opts : List (String × SubAction)) (s : SubScript) : PyVal :=
  if submenuResult opts s = .quitSentinel then .pybool false else .pynone

/-- Scripts that reach the standardized quit key at some nesting depth,
descending only through existing nested submenu options. -/
inductive QuitPath : List (String × SubAction) → SubScript → Prop
  | here (opts : List (String × SubAction)) : QuitPath opts .quit
  | deeper {opts : List (String × SubAction)} {i : ℕ} {name : String}
      {opts2 : List (String × SubAction)} {s : SubScript} :
      opts[i]? = some (name, .driver opts2) → QuitPath opts2 s →
      QuitPath opts (.pick i s)

theorem submenuResult_quit {opts : List (String × SubAction)} {s : SubScript}
    (h : QuitPath opts s) : submenuResult opts s = .quitSentinel := by
  induction h with
  | here => rfl
  | deeper hget hq ih => simp [submenuResult, hget, ih]

/-- One item of the interactive menu (`MenuItem`: display name and bound
zero-argument action). -/
structure MenuItemM where
  name : String
  action : SubAction

/-- One category of the interactive menu (`MenuCategory`). -/
structure MenuCategoryM where
  name : String
  expanded : Bool
  items : List MenuItemM

/-- A top-level entry of `InteractiveMenu.items`. -/
inductive MenuEntry where
  | it (m : MenuItemM)
  | cat (c : MenuCategoryM)

/-- An element of the flattened visible list; a category carries its
top-level index (standing in for the source's object identity when its
expansion is toggled). -/
inductive VisEntry where
  | vitem (m : MenuItemM)
  | vcat (topIdx : ℕ) (c : MenuCategoryM)

/-- `InteractiveMenu._get_visible_items`: every top-level entry, each
expanded category followed by its children. -/
def visibleAux : ℕ → List MenuEntry → List VisEntry
  | _, [] => []
  | k, .it m :: rest => .vitem m :: visibleAux (k + 1) rest
  | k, .cat c :: rest =>
    .vcat k c :: ((if c.expanded then c.items.map .vitem else []) ++
      visibleAux (k + 1) rest)

/-- The currently visible flattened item list. -/
def visibleEntries (items : List MenuEntry) : List VisEntry :=
  visibleAux 0 items

/-- The interactive menu state: entries plus the integer cursor. -/
structure MenuState where
  items : List MenuEntry
  currentIndex : ℕ

/-- `InteractiveMenu.navigate_up`: move up unless already at the top. -/
def navigate_up (st : MenuState) : MenuState :=
  if 0 < st.currentIndex then { st with currentIndex := st.currentIndex - 1 } else st

/-- `InteractiveMenu.navigate_down`: move down unless on the last visible
item (`current_index < len(visible_items) - 1` over Python ints). -/
def navigate_down (st : MenuState) : MenuState :=
  if (st.currentIndex : ℤ) < (visibleEntries st.items).length - 1 then
    { st with currentIndex := st.currentIndex + 1 }
  else st

/-- Toggle the expansion flag of the category at top-level index `k`. -/
def toggleCat : List MenuEntry → ℕ → List MenuEntry
  | [], _ => []
  | .cat c :: rest, 0 => .cat { c with expanded := !c.expanded } :: rest
  | e :: rest, 0 => e :: rest
  | e :: rest, k + 1 => e :: toggleCat rest k

/-- `InteractiveMenu.handle_selection` on Enter, with the submenu inputs
`s`: out-of-range cursor returns `None`; a category toggles its expansion;
an item runs its bound action. -/
def handle_selection (st : MenuState) (s : SubScript) : MenuState × PyVal :=
  match (visibleEntries st.items)[st.currentIndex]? with
  | none => (st, .pynone)
  | some (.vcat k _) => ({ st with items := toggleCat st.items k }, .pynone)
  | some (.vitem m) =>
    match m.action with
    | .leaf v => (st, v)
    | .driver opts => (st, menuDrivingFn opts s)

/-- `InteractiveMenu.collapse_all`. -/
def collapseAll (items : List MenuEntry) : List MenuEntry :=
  items.map (fun e => match e with
    | .cat c => .cat { c with expanded := false }
    | e => e)

/-- The keystrokes modelled for the run loop (Enter carries the inputs the
user will type inside any standardized submenus the action opens). -/
inductive MKey where
  | up
  | down
  | enter (s : SubScript)
  | esc
  | qkey

/-- `InteractiveMenu.run` over a finite keystroke script: `some false` means
the loop returned `False` (the application-exit signal: the `q` quick key,
or a selection whose result `is False`); `none` means the script ran out
with the loop still alive. -/
def menuRun : MenuState → List MKey → Option Bool
  | _, [] => none
  | st, k :: ks =>
    match k with
    | .up => menuRun (navigate_up st) ks
    | .down => menuRun (navigate_down st) ks
    | .esc => menuRun { items := collapseAll st.items, currentIndex := 0 } ks
    | .qkey => some false
    | .enter s =>
      let p := handle_selection st s
      if p.2 = .pybool false then some false else menuRun p.1 ks

/-- `UnboundManagerCLI.run`: re-runs the menu until it returns `False`,
then breaks and the process exits cleanly. -/
def cli_loop_exits (st : MenuState) (keys : List MKey) : Bool :=
  menuRun st keys == some false

/-- Options of `manage_services_advanced` (six terminal service actions). -/
def servicesAdvancedOpts : List (String × SubAction) :=
  [("Start Unbound", .leaf .pynone), ("Stop Unbound", .leaf .pynone),
   ("Restart Unbound", .leaf .pynone), ("Start Redis", .leaf .pynone),
   ("Stop Redis", .leaf .pynone), ("Restart Redis", .leaf .pynone)]

/-- Options of `manage_services_quick` (Advanced Options is itself a
menu-driving function). -/
def servicesOpts : List (String × SubAction) :=
  [("Start All", .leaf .pynone), ("Stop All", .leaf .pynone),
   ("Advanced Options", .driver servicesAdvancedOpts)]

/-- Options of `view_logs_interactive`. -/
def viewLogsOpts : List (String × SubAction) :=
  [("Last 50 lines", .leaf .pynone), ("Last 100 lines", .leaf .pynone),
   ("Last 200 lines", .leaf .pynone), ("Follow (real-time)", .leaf .pynone)]

/-- Options of `view_menu` (View Logs is itself a menu-driving function). -/
def viewOpts : List (String × SubAction) :=
  [("Service Status", .leaf .pynone), ("DNS Statistics", .leaf .pynone),
   ("Extended Stats", .leaf .pynone), ("Redis Stats", .leaf .pynone),
   ("View Logs", .driver viewLogsOpts)]

/-- Options of `edit_configuration_interactive`. -/
def editFileOpts : List (String × SubAction) :=
  [("Quick Edit", .leaf .pynone), ("Open in Nano", .leaf .pynone),
   ("Open in Vim", .leaf .pynone), ("View Only", .leaf .pynone)]

/-- Options of `ConfigManager.manage_configuration` (three nested
per-file editors). -/
def configOpts : List (String × SubAction) :=
  [("View Config", .leaf .pynone), ("Edit Server", .driver editFileOpts),
   ("Edit DNSSEC", .driver editFileOpts), ("Edit Redis", .driver editFileOpts),
   ("Access Control", .leaf .pynone), ("Validate", .leaf .pynone),
   ("Reset Defaults", .leaf .pynone)]

/-- Options of `DNSSECManager.manage_dnssec`. -/
def dnssecOpts : List (String × SubAction) :=
  [("Update Root Hints", .leaf .pynone), ("Update Trust Anchor", .leaf .pynone),
   ("Regenerate Keys", .leaf .pynone), ("Test Validation", .leaf .pynone),
   ("View Status", .leaf .pynone)]

/-- The menu tree built by `UnboundManagerCLI.setup_menu` (terminal actions
that open no standardized submenu are modelled as returning `None`; the
top-level Exit item's action is `lambda: False`). -/
def cliMenu : List MenuEntry :=
  [.it ⟨"Services", .driver servicesOpts⟩,
   .it ⟨"View", .driver viewOpts⟩,
   .cat ⟨"Configuration", false,
     [⟨"DNS Upstream", .leaf .pynone⟩, ⟨"Server Settings", .driver configOpts⟩,
      ⟨"Access Control", .leaf .pynone⟩, ⟨"Redis Cache", .leaf .pynone⟩,
      ⟨"DNSSEC", .driver dnssecOpts⟩]⟩,
   .cat ⟨"Testing", false,
     [⟨"Run Diagnostics", .leaf .pynone⟩, ⟨"Test DNS", .leaf .pynone⟩,
      ⟨"Performance", .leaf .pynone⟩, ⟨"Network", .leaf .pynone⟩]⟩,
   .cat ⟨"Backups", false,
     [⟨"Create Backup", .leaf .pynone⟩, ⟨"Restore Backup", .leaf .pynone⟩,
      ⟨"Cleanup", .leaf .pynone⟩]⟩,
   .cat ⟨"Install/Update", false,
     [⟨"Update Unbound", .leaf .pynone⟩, ⟨"Update Manager", .leaf .pynone⟩,
      ⟨"Fresh Install", .leaf .pynone⟩, ⟨"Fix Installation", .leaf .pynone⟩,
      ⟨"Regenerate Keys", .leaf .pynone⟩, ⟨"Uninstall", .leaf .pynone⟩]⟩,
   .it ⟨"Help", .leaf .pynone⟩,
   .it ⟨"Exit", .leaf (.pybool false)⟩]

/-- Claim C7: the standardized quit key in any nested submenu produces the
QUIT sentinel, every enclosing menu-driving function converts it to the
boolean `False`, the interactive menu loop returns `False` on such a
selection, and the top-level loop exits — exactly as for the Exit item whose
action returns `False` (here: Services → Advanced Options → quit, and
navigating down to Exit). -/
theorem submenu_quit_propagates :
    (∀ (opts : List (String × SubAction)) (s : SubScript), QuitPath opts s →
      menuDrivingFn opts s = .pybool false) ∧
    (∀ (st : MenuState) (ks : List MKey) (s : SubScript)
        (m : MenuItemM) (opts : List (String × SubAction)),
      (visibleEntries st.items)[st.currentIndex]? = some (.vitem m) →
      m.action = .driver opts → QuitPath opts s →
      menuRun st (.enter s :: ks) = some false ∧
      cli_loop_exits st (.enter s :: ks) = true) ∧
    cli_loop_exits ⟨cliMenu, 0⟩ [.enter (.pick 2 .quit)] = true ∧
    cli_loop_exits ⟨cliMenu, 0⟩
      [.down, .down, .down, .down, .down, .down, .down, .enter .ret] = true := by
  have h1 : ∀ (opts : List (String × SubAction)) (s : SubScript), QuitPath opts s →
      menuDrivingFn opts s = .pybool false := by
    intro opts s h
    rw [menuDrivingFn, if_pos (submenuResult_quit h)]
  refine ⟨h1, ?_, by decide, by decide⟩
  intro st ks s m opts hv ha hq
  have hrun : menuRun st (.enter s :: ks) = some false := by
    rw [menuRun]
    simp only [handle_selection, hv, ha, h1 opts s hq]
    rfl
  exact ⟨hrun, by rw [cli_loop_exits, hrun]; rfl⟩

/-- Claim C7 witness: quitting from View → View Logs (two levels deep)
terminates the application. -/
theorem submenu_quit_propagates_witness :
    menuDrivingFn viewOpts (.pick 4 .quit) = PyVal.pybool false ∧
    menuRun ⟨cliMenu, 1⟩ [.enter (.pick 4 .quit)] = some false :=
  ⟨submenu_quit_propagates.1 viewOpts _
      (QuitPath.deeper rfl (QuitPath.here _)),
   (submenu_quit_propagates.2.1 ⟨cliMenu, 1⟩ [] (.pick 4 .quit)
      ⟨"View", .driver viewOpts⟩ viewOpts rfl rfl
      (QuitPath.deeper rfl (QuitPath.here _))).1⟩

/-- Claim C8: the cursor stays within the visible list under both
navigation operations; pressing up on the first visible item and down on the
last leave the cursor unchanged (no wraparound), and otherwise they move the
cursor by exactly one. -/
theorem menu_navigation_bounds (st : MenuState) :
    (st.currentIndex < (visibleEntries st.items).length →
      (navigate_up st).currentIndex < (visibleEntries (navigate_up st).items).length ∧
      (navigate_down st).currentIndex <
        (visibleEntries (navigate_down st).items).length) ∧
    (st.currentIndex = 0 → navigate_up st = st) ∧
    (0 < st.currentIndex → (navigate_up st).currentIndex = st.currentIndex - 1 ∧
      (navigate_up st).items = st.items) ∧
    (st.currentIndex = (visibleEntries st.items).length - 1 →
      navigate_down st = st) ∧
    ((st.currentIndex : ℤ) < (visibleEntries st.items).length - 1 →
      (navigate_down st).currentIndex = st.currentIndex + 1 ∧
      (navigate_down st).items = st.items) := by
  obtain ⟨items, idx⟩ := st
  dsimp only
  refine ⟨?_, ?_, ?_, ?_, ?_⟩
  · intro hlt
    constructor
    · rw [navigate_up]
      split_ifs with h <;> dsimp only at * <;> omega
    · rw [navigate_down]
      split_ifs with h <;> dsimp only at * <;> omega
  · intro h0
    rw [navigate_up]
    dsimp only
    rw [if_neg (by omega)]
  · intro hpos
    rw [navigate_up]
    dsimp only at *
    rw [if_pos hpos]
    exact ⟨rfl, rfl⟩
  · intro hlast
    rw [navigate_down]
    dsimp only at *
    rw [if_neg (by omega)]
  · intro hlt
    rw [navigate_down]
    dsimp only at *
    rw [if_pos hlt]
    exact ⟨rfl, rfl⟩

/-- Claim C8 witness: on the CLI menu (8 visible entries, cursor at the
top), up stays at 0 and down moves to 1; at the last entry, down stays. -/
theorem menu_navigation_bounds_witness :
    navigate_up ⟨cliMenu, 0⟩ = ⟨cliMenu, 0⟩ ∧
    (navigate_down ⟨cliMenu, 0⟩).currentIndex = 1 ∧
    navigate_down ⟨cliMenu, 7⟩ = ⟨cliMenu, 7⟩ :=
  ⟨(menu_navigation_bounds ⟨cliMenu, 0⟩).2.1 rfl,
   ((menu_navigation_bounds ⟨cliMenu, 0⟩).2.2.2.2 (by decide)).1,
   (menu_navigation_bounds ⟨cliMenu, 7⟩).2.2.2.1 (by decide)⟩
